import Mathlib

/-!
# Millicast publisher statistics: `Stats.cpp`

A shallow embedding of `Source/MillicastPublisher/Private/WebRTC/Stats.cpp`
(`CalcEMA`, `FPublisherStats::SetEncoderStats`, `GetInUnit`,
`FPublisherStats::RegisterStatsCollector`, `FPublisherStats::UnregisterStatsCollector`,
`ValueOrDefault`, `GetOptionalStat`, `FRTCStatsCollector::FRTCStatsCollector`,
`FRTCStatsCollector::OnStatsDelivered`) and the properties proved about it.

## Modelling conventions

* C++ `double` is the type `Double` below: a finite value is an exact rational number,
  and the three IEEE special values (`+inf`, `-inf`, `NaN`) are explicit, so that a
  division by zero is visible in the result.  The sign of zero is not modelled.
* There are two sets of operations on `Double`.  `add`, `sub`, `mul`, `div`, `ofNat` return
  the exact result; `OnStatsDelivered` is written with them, so a value it computes is the
  value of the expression of the source before rounding.  `add64`, `sub64`, `mul64`,
  `div64`, `ofNat64` round the exact result to binary64 (round to nearest, ties to even,
  overflow to an infinity, every operation rounded on its own); `CalcEMA` and `GetInUnit`
  are written with them, and `avgEncodeTimeUpdate64` is the encode time average with
  them.  `isBinary64` tells the rationals that are finite binary64 values.
* Unsigned 64 bit integers (`size_t`, `uint64_t`) are natural numbers; subtraction and
  multiplication are reduced modulo `2^64` where the source computes in that type.
* A WebRTC statistics record (`webrtc::RTCStats` and the classes it is cast to) is one
  flat structure with a type tag, an identifier, a timestamp and the optional members
  the source reads; `cast_to` is the identity on it.  An `RTCStatsMember<T>` is an
  `Option T` (`is_defined()` is `isSome`).  The type tags are the `kType` constants of the
  WebRTC library; the source compares them as `FString`, which ignores the case of ASCII
  letters, and compares `kind` and the codec identifiers as `std::string`.
* The header `Stats.h` is not part of the sources at hand.  The member types of
  `FRTCStatsCollector` are taken from their uses in `Stats.cpp`: members printed with
  `%.2f` or exported through a `(float)` cast are `double`, `VideoTotalSent` and
  `AudioTotalSent` (printed with `%lld`, assigned from `uint64_t bytes_sent`) are
  unsigned 64 bit, members exported without a cast are `int`.
-/

namespace MillicastPublisher

/-! ## The `double` model -/

/-- C++ `double`: an exact rational, or one of the IEEE special values. -/
inductive Double where
  | fin (q : ℚ)
  | posInf
  | negInf
  | nan
  deriving DecidableEq

namespace Double

/-- Conversion of an unsigned integer to `double`. -/
def ofNat (n : Nat) : Double := fin (n : ℚ)

/-- Conversion of a signed integer to `double`. -/
def ofInt (z : Int) : Double := fin (z : ℚ)

/-- Unary minus. -/
def neg : Double → Double
  | fin q => fin (-q)
  | posInf => negInf
  | negInf => posInf
  | nan => nan

/-- Addition, IEEE rules on the special values. -/
def add : Double → Double → Double
  | fin a, fin b => fin (a + b)
  | nan, _ => nan
  | _, nan => nan
  | posInf, negInf => nan
  | negInf, posInf => nan
  | posInf, _ => posInf
  | negInf, _ => negInf
  | fin _, posInf => posInf
  | fin _, negInf => negInf

/-- Subtraction. -/
def sub (a b : Double) : Double := add a (neg b)

/-- The infinity of the given sign (`true` is negative). -/
def infOfSign (negative : Bool) : Double := if negative then negInf else posInf

/-- Multiplication, IEEE rules on the special values. -/
def mul : Double → Double → Double
  | fin a, fin b => fin (a * b)
  | nan, _ => nan
  | _, nan => nan
  | fin a, posInf => if a = 0 then nan else infOfSign (decide (a < 0))
  | fin a, negInf => if a = 0 then nan else infOfSign (decide (0 < a))
  | posInf, fin b => if b = 0 then nan else infOfSign (decide (b < 0))
  | negInf, fin b => if b = 0 then nan else infOfSign (decide (0 < b))
  | posInf, posInf => posInf
  | negInf, negInf => posInf
  | posInf, negInf => negInf
  | negInf, posInf => negInf

/-- Division, IEEE rules: a nonzero finite value divided by zero is an infinity,
zero divided by zero is `NaN`. -/
def div : Double → Double → Double
  | fin a, fin b =>
      if b = 0 then (if a = 0 then nan else infOfSign (decide (a < 0))) else fin (a / b)
  | nan, _ => nan
  | _, nan => nan
  | fin _, posInf => fin 0
  | fin _, negInf => fin 0
  | posInf, fin b => infOfSign (decide (b < 0))
  | negInf, fin b => infOfSign (decide (0 ≤ b))
  | posInf, posInf => nan
  | posInf, negInf => nan
  | negInf, posInf => nan
  | negInf, negInf => nan

/-- The C++ test `x != 0` (also the conversion of a `double` to `bool`). -/
def isNonzero : Double → Bool
  | fin q => decide (q ≠ 0)
  | _ => true

/-- The C++ comparison `a <= b`: false as soon as one side is `NaN`. -/
def le : Double → Double → Bool
  | nan, _ => false
  | _, nan => false
  | fin a, fin b => decide (a ≤ b)
  | negInf, _ => true
  | _, posInf => true
  | posInf, _ => false
  | fin _, negInf => false

/-- The C++ comparison `a < b`: false as soon as one side is `NaN`. -/
def lt : Double → Double → Bool
  | nan, _ => false
  | _, nan => false
  | fin a, fin b => decide (a < b)
  | posInf, _ => false
  | _, negInf => false
  | negInf, _ => true
  | fin _, posInf => true

/-- Conversion of a `double` to `size_t`: truncation toward zero.  The conversion of a
value outside the range of `size_t` is undefined in C++; it is `0` here. -/
def toSizeT : Double → Nat
  | fin q => if 0 ≤ q ∧ q < 2 ^ 64 then Int.toNat ⌊q⌋ else 0
  | _ => 0

end Double

/-! ## Rounding to binary64 -/

/-- The exponent of the unit in the last place of the binary64 format at the exact value
`x`: 52 below the binary exponent of `x`, and `-1074` in the subnormal range. -/
def ulpExponent (x : ℚ) : ℤ := max (Int.log 2 |x| - 52) (-1074)

/-- The integer nearest to a rational, a tie going to the even integer. -/
def roundHalfEven (q : ℚ) : ℤ :=
  if q - (⌊q⌋ : ℚ) < 1 / 2 then ⌊q⌋
  else if 1 / 2 < q - (⌊q⌋ : ℚ) then ⌊q⌋ + 1
  else if ⌊q⌋ % 2 = 0 then ⌊q⌋
  else ⌊q⌋ + 1

/-- The multiple of the unit in the last place nearest to the exact value `x` (round to
nearest, ties to even): the binary64 rounding of `x` before the test for overflow. -/
def round64 (x : ℚ) : ℚ :=
  (roundHalfEven (x / 2 ^ ulpExponent x) : ℚ) * 2 ^ ulpExponent x

/-- The rational `x` is a finite value of the binary64 format. -/
def isBinary64 (x : ℚ) : Prop := round64 x = x ∧ |x| < 2 ^ 1024

instance (x : ℚ) : Decidable (isBinary64 x) := by
  unfold isBinary64
  infer_instance

namespace Double

/-- The `double` that an operation with the exact finite result `x` returns: the nearest
binary64 value, and the infinity of the sign of `x` when that value is out of range. -/
def ofRat (x : ℚ) : Double :=
  if 2 ^ 1024 ≤ |round64 x| then infOfSign (decide (x < 0)) else fin (round64 x)

/-- Rounding of the result of an exact operation; the special values stay. -/
def rounded : Double → Double
  | fin q => ofRat q
  | posInf => posInf
  | negInf => negInf
  | nan => nan

/-- Addition of two `double` values in binary64 arithmetic. -/
def add64 (a b : Double) : Double := rounded (add a b)

/-- Subtraction in binary64 arithmetic. -/
def sub64 (a b : Double) : Double := rounded (sub a b)

/-- Multiplication in binary64 arithmetic. -/
def mul64 (a b : Double) : Double := rounded (mul a b)

/-- Division in binary64 arithmetic. -/
def div64 (a b : Double) : Double := rounded (div a b)

/-- Conversion of an unsigned 64 bit integer to `double` in binary64 arithmetic: an
integer above `2^53` is rounded. -/
def ofNat64 (n : Nat) : Double := ofRat (n : ℚ)

/-- The value is a `double`: a special value or a finite value of the binary64 format. -/
def isValue : Double → Prop
  | fin q => isBinary64 q
  | _ => True

instance (d : Double) : Decidable d.isValue :=
  match d with
  | fin q => inferInstanceAs (Decidable (isBinary64 q))
  | posInf => isTrue trivial
  | negInf => isTrue trivial
  | nan => isTrue trivial

/-- The value `x` lies between `a` and `b`, ends included, in the order of `<=`. -/
def between (a x b : Double) : Prop :=
  (le a x = true ∧ le x b = true) ∨ (le b x = true ∧ le x a = true)

instance (a x b : Double) : Decidable (between a x b) := by
  unfold between
  infer_instance

end Double

/-! ## Machine integers -/

/-- Subtraction of two `size_t` values (modulo `2^64`). -/
def subSizeT (a b : Nat) : Nat := (a % 2 ^ 64 + 2 ^ 64 - b % 2 ^ 64) % 2 ^ 64

/-- Multiplication of two `size_t` values (modulo `2^64`). -/
def mulSizeT (a b : Nat) : Nat := (a * b) % 2 ^ 64

/-- Conversion of an unsigned integer to `int` (two's complement, 32 bit). -/
def toInt32 (n : Nat) : Int :=
  if n % 2 ^ 32 < 2 ^ 31 then ((n % 2 ^ 32 : Nat) : Int) else ((n % 2 ^ 32 : Nat) : Int) - 2 ^ 32

/-! ## `FPublisherStats`: smoothed metrics -/

/-- Source: `CalcEMA`, every operation rounded to binary64.  The conversion of the `int`
argument to `double` is exact. -/
def CalcEMA (PrevAvg : Double) (NumSamples : Int) (Value : Double) : Double :=
  let Mult := Double.div64 (Double.fin 2) (Double.add64 (Double.ofInt NumSamples) (Double.fin 1))
  let Result := Double.add64 (Double.mul64 (Double.sub64 Value PrevAvg) Mult) PrevAvg
  Result

/-- The value of the expression of `CalcEMA` when the multiplier is 1:
`(Value - PrevAvg) + PrevAvg` in binary64 arithmetic.  It is `Value` when the difference
`Value - PrevAvg` is a binary64 value. -/
def emaTarget (PrevAvg Value : Double) : Double :=
  Double.add64 (Double.sub64 Value PrevAvg) PrevAvg

/-- The encoder members of `FPublisherStats` that `SetEncoderStats` reads and writes. -/
structure FPublisherStats where
  EncoderStatSamples : Int
  EncoderLatencyMs : Double
  EncoderBitrateMbps : Double
  EncoderQP : Double
  deriving DecidableEq

/-- Source: `FPublisherStats::SetEncoderStats`. -/
def FPublisherStats.SetEncoderStats (self : FPublisherStats) (LatencyMs BitrateMbps : Double)
    (QP : Int) : FPublisherStats :=
  let EncoderStatSamples := min (self.EncoderStatSamples + 1) 60
  { EncoderStatSamples := EncoderStatSamples
    EncoderLatencyMs := CalcEMA self.EncoderLatencyMs EncoderStatSamples LatencyMs
    EncoderBitrateMbps := CalcEMA self.EncoderBitrateMbps EncoderStatSamples BitrateMbps
    EncoderQP := CalcEMA self.EncoderQP EncoderStatSamples (Double.ofInt QP) }

/-- The state after `j` consecutive calls `SetEncoderStats(LatencyMs, BitrateMbps, QP)` with
the same arguments. -/
def FPublisherStats.feedEncoderStats (self : FPublisherStats) (LatencyMs BitrateMbps : Double)
    (QP : Int) : Nat → FPublisherStats
  | 0 => self
  | j + 1 => (self.feedEncoderStats LatencyMs BitrateMbps QP j).SetEncoderStats LatencyMs
      BitrateMbps QP

/-- The constant `MEGA` of `GetInUnit`. -/
def MEGA : Double := Double.fin 1000000

/-- The constant `KILO` of `GetInUnit`. -/
def KILO : Double := Double.fin 1000

/-- Source: `GetInUnit`, the instance `T = double` (used for `VideoBitrate` and
`AudioBitrate`); the quotient is rounded to binary64. -/
def GetInUnit_double (Value : Double) (Unit : String) : Double × String :=
  if Double.le MEGA Value = true then
    (Double.div64 Value MEGA, "M" ++ Unit)
  else if Double.le KILO Value = true then
    (Double.div64 Value KILO, "K" ++ Unit)
  else
    (Value, Unit)

/-- Source: `GetInUnit`, the instance `T = size_t` (used for `VideoTotalSent` and
`AudioTotalSent`): the value is converted to `double` for the comparisons and the
division, both in binary64 arithmetic, and the quotient is converted back to `size_t` in
the returned tuple. -/
def GetInUnit_size_t (Value : Nat) (Unit : String) : Nat × String :=
  if Double.le MEGA (Double.ofNat64 Value) = true then
    (Double.toSizeT (Double.div64 (Double.ofNat64 Value) MEGA), "M" ++ Unit)
  else if Double.le KILO (Double.ofNat64 Value) = true then
    (Double.toSizeT (Double.div64 (Double.ofNat64 Value) KILO), "K" ++ Unit)
  else
    (Value, Unit)

/-! ## `FPublisherStats`: the registry of collectors -/

/-- The member `StatsCollectors` of `FPublisherStats`, an array of collector addresses
(`TArray<FRTCStatsCollector*>`); an address is a natural number. -/
structure CollectorRegistry where
  StatsCollectors : List Nat
  deriving DecidableEq

/-- The registry of a `FPublisherStats` on which nothing was registered. -/
def CollectorRegistry.empty : CollectorRegistry := { StatsCollectors := [] }

/-- Source: `FPublisherStats::RegisterStatsCollector`; `TArray::Add` appends the element. -/
def FPublisherStats.RegisterStatsCollector (self : CollectorRegistry) (Connection : Nat) :
    CollectorRegistry :=
  { StatsCollectors := self.StatsCollectors ++ [Connection] }

/-- Source: `FPublisherStats::UnregisterStatsCollector`; `TArray::Remove` removes every
element equal to the argument. -/
def FPublisherStats.UnregisterStatsCollector (self : CollectorRegistry) (Connection : Nat) :
    CollectorRegistry :=
  { StatsCollectors := self.StatsCollectors.filter (fun c => decide (c ≠ Connection)) }

/-- The effect on the registry of the constructor `FRTCStatsCollector::FRTCStatsCollector`
of the collector at address `this`. -/
def FRTCStatsCollector.constructRegistry (registry : CollectorRegistry) (this : Nat) :
    CollectorRegistry :=
  FPublisherStats.RegisterStatsCollector registry this

/-- The effect on the registry of the destructor `FRTCStatsCollector::~FRTCStatsCollector`
of the collector at address `this`. -/
def FRTCStatsCollector.destructRegistry (registry : CollectorRegistry) (this : Nat) :
    CollectorRegistry :=
  FPublisherStats.UnregisterStatsCollector registry this

/-- Registration of the collectors of a list, first to last. -/
def registerAll (registry : CollectorRegistry) (collectors : List Nat) : CollectorRegistry :=
  collectors.foldl FPublisherStats.RegisterStatsCollector registry

/-- Removal of the collectors of a list, first to last. -/
def unregisterAll (registry : CollectorRegistry) (collectors : List Nat) : CollectorRegistry :=
  collectors.foldl FPublisherStats.UnregisterStatsCollector registry

/-! ## Statistics reports -/

/-- A statistics record: `webrtc::RTCStats` together with the members of
`RTCOutboundRTPStreamStats`, `RTCMediaStreamTrackStats`, `RTCIceCandidatePairStats` and
`RTCCodecStats` that `OnStatsDelivered` reads after `cast_to`. -/
structure RTCStats where
  type : String
  id : String
  timestamp_us : Int
  kind : Option String
  codec_id : Option String
  mime_type : Option String
  frame_width : Option Nat
  frame_height : Option Nat
  frames_per_second : Option Double
  bytes_sent : Option Nat
  total_encode_time : Option Double
  frames_encoded : Option Nat
  nack_count : Option Nat
  retransmitted_packets_sent : Option Nat
  quality_limitation_reason : Option String
  content_type : Option String
  quality_limitation_resolution_changes : Option Nat
  frames_dropped : Option Nat
  current_round_trip_time : Option Double
  deriving DecidableEq

/-- A report (`webrtc::RTCStatsReport`): its own timestamp and its records in iteration
order. -/
structure RTCStatsReport where
  timestamp_us : Int
  stats : List RTCStats
  deriving DecidableEq

/-- The type tag `webrtc::RTCOutboundRTPStreamStats::kType`. -/
def RTCOutboundRTPStreamStats_kType : String := "outbound-rtp"

/-- The type tag `webrtc::RTCMediaStreamTrackStats::kType`. -/
def RTCMediaStreamTrackStats_kType : String := "track"

/-- The type tag `webrtc::RTCIceCandidateStats::kType`, the tag of the common base class of
the local and remote candidate records. -/
def RTCIceCandidateStats_kType : String := "abstract-ice-candidate"

/-- The type tag `webrtc::RTCIceCandidatePairStats::kType`. -/
def RTCIceCandidatePairStats_kType : String := "candidate-pair"

/-- The type tag `webrtc::RTCCodecStats::kType`. -/
def RTCCodecStats_kType : String := "codec"

/-- The constant `webrtc::RTCMediaStreamTrackKind::kVideo`. -/
def RTCMediaStreamTrackKind_kVideo : String := "video"

/-- The comparison `FString::operator==` of Unreal Engine, used on the type tags: it
ignores the case of ASCII letters. -/
def FStringEq (Lhs Rhs : String) : Prop :=
  Lhs.data.map Char.toLower = Rhs.data.map Char.toLower

instance (Lhs Rhs : String) : Decidable (FStringEq Lhs Rhs) := by
  unfold FStringEq
  infer_instance

/-- Dereference of a string member (`*Member`); an undefined member holds the empty
string. -/
def derefString (Member : Option String) : String :=
  match Member with
  | some s => s
  | none => ""

/-- Source: `ValueOrDefault`. -/
def ValueOrDefault {T : Type} (Stat : Option T) (Default : T) : T :=
  match Stat with
  | some v => v
  | none => Default

/-- Modelled from the spec: the conversion `ToString` of `util.h` (not part of the sources
at hand) from a C++ string to an `FString`; it keeps the text. -/
def ToString (s : String) : String := s

/-- Source: `GetOptionalStat`, the branch for members that are not strings. -/
def GetOptionalStat {T : Type} (Member : Option T) : Option T :=
  match Member with
  | some v => some v
  | none => none

/-- Source: `std::string::c_str()` read as a C string, as the conversion to `FString` does:
the text before the first NUL character. -/
def c_str (s : String) : String :=
  String.mk (s.data.takeWhile (fun c => decide (c ≠ Char.ofNat 0)))

/-- Source: `GetOptionalStat`, the branch for members of type `std::string`. -/
def GetOptionalStatString (Member : Option String) : Option String :=
  match Member with
  | some v => some (ToString (c_str v))
  | none => none

/-- Source: `Report->GetStatsOfType<webrtc::RTCCodecStats>()`. -/
def RTCStatsReport.GetStatsOfTypeCodec (Report : RTCStatsReport) : List RTCStats :=
  Report.stats.filter (fun e => decide (e.type = RTCCodecStats_kType))

/-- Source: the lambda `get_codec` of `OnStatsDelivered`. -/
def get_codec (Report : RTCStatsReport) (OutboundStat : RTCStats) : String :=
  let CodecStats := Report.GetStatsOfTypeCodec
  match CodecStats.find? (fun e => decide (e.id = derefString OutboundStat.codec_id)) with
  | some it => ToString (derefString it.mime_type)
  | none => ""

/-! ## `FRTCStatsCollector` -/

/-- The data members of `FRTCStatsCollector`. -/
structure FRTCStatsCollector where
  LastVideoStatTimestamp : Double
  LastAudioStatTimestamp : Double
  Rtt : Double
  Width : Nat
  Height : Nat
  FramePerSecond : Nat
  VideoBitrate : Double
  AudioBitrate : Double
  VideoTotalSent : Nat
  AudioTotalSent : Nat
  VideoPacketRetransmitted : Int
  AudioPacketRetransmitted : Int
  VideoCodec : String
  AudioCodec : String
  FramesDropped : Int
  VideoNackCount : Int
  AudioNackCount : Int
  TotalEncodedFrames : Double
  AvgEncodeTime : Double
  TotalEncodeTime : Double
  QualityLimitationReason : Option String
  ContentType : Option String
  QualityLimitationResolutionChange : Nat
  Timestamp : Double
  deriving DecidableEq

/-- Source: the constructor `FRTCStatsCollector::FRTCStatsCollector`.  The constructor body
does not assign `QualityLimitationResolutionChange`; its initial value is the argument.
The strings and the optional members are default constructed.  The call of
`RegisterStatsCollector` acts on `FPublisherStats`, not on the members of the collector. -/
def FRTCStatsCollector.construct (QualityLimitationResolutionChange : Nat) : FRTCStatsCollector :=
  { LastVideoStatTimestamp := Double.fin 0
    LastAudioStatTimestamp := Double.fin 0
    Rtt := Double.fin 0
    Width := 0
    Height := 0
    FramePerSecond := 0
    VideoBitrate := Double.fin 0
    AudioBitrate := Double.fin 0
    VideoTotalSent := 0
    AudioTotalSent := 0
    VideoPacketRetransmitted := 0
    AudioPacketRetransmitted := 0
    VideoCodec := ""
    AudioCodec := ""
    FramesDropped := 0
    VideoNackCount := 0
    AudioNackCount := 0
    TotalEncodedFrames := Double.fin 0
    AvgEncodeTime := Double.fin 0
    TotalEncodeTime := Double.fin 0
    QualityLimitationReason := none
    ContentType := none
    QualityLimitationResolutionChange := QualityLimitationResolutionChange
    Timestamp := Double.fin 0 }

/-- The constant `NUM_US` of `OnStatsDelivered`: microseconds in one second. -/
def NUM_US : Nat := 1000000

/-- The guarded video bitrate computation of `OnStatsDelivered`:
`if (LastVideoStatTimestamp != 0 && VideoTotalSent != lastByteCount)` then
`(VideoTotalSent - lastByteCount) * NUM_US * 8. / (timestamp - LastVideoStatTimestamp)`.
The result is `none` when the guard fails and no division is evaluated. -/
def videoBitrateUpdate (LastVideoStatTimestamp : Double) (lastByteCount VideoTotalSent : Nat)
    (timestamp : Int) : Option Double :=
  if LastVideoStatTimestamp.isNonzero = true ∧ VideoTotalSent ≠ lastByteCount then
    some (Double.div
      (Double.mul (Double.ofNat (mulSizeT (subSizeT VideoTotalSent lastByteCount) NUM_US))
        (Double.fin 8))
      (Double.sub (Double.ofInt timestamp) LastVideoStatTimestamp))
  else
    none

/-- The guarded audio bitrate computation of `OnStatsDelivered`:
`if (LastAudioStatTimestamp != 0 && AudioTotalSent != lastByteCount)` then
`(AudioTotalSent - lastByteCount) * NUM_US * 8 / (timestamp - LastAudioStatTimestamp)`;
the factor `8` is an integer here, so the whole numerator is computed in `size_t`. -/
def audioBitrateUpdate (LastAudioStatTimestamp : Double) (lastByteCount AudioTotalSent : Nat)
    (timestamp : Int) : Option Double :=
  if LastAudioStatTimestamp.isNonzero = true ∧ AudioTotalSent ≠ lastByteCount then
    some (Double.div
      (Double.ofNat (mulSizeT (mulSizeT (subSizeT AudioTotalSent lastByteCount) NUM_US) 8))
      (Double.sub (Double.ofInt timestamp) LastAudioStatTimestamp))
  else
    none

/-- The state of the scan of `OnStatsDelivered`: the collector and the two locals
`NewTotalEncodedFrames` and `NewTotalEncodeTime`. -/
structure ScanState where
  self : FRTCStatsCollector
  NewTotalEncodedFrames : Double
  NewTotalEncodeTime : Double
  deriving DecidableEq

/-- The video branch of the outbound stream case of `OnStatsDelivered`. -/
def onVideoOutbound (Report : RTCStatsReport) (st : ScanState) (Stats : RTCStats) : ScanState :=
  let lastByteCount := st.self.VideoTotalSent
  let timestamp := Stats.timestamp_us
  let VideoTotalSent := ValueOrDefault Stats.bytes_sent 0
  { self :=
      { st.self with
        Width := ValueOrDefault Stats.frame_width 0
        Height := ValueOrDefault Stats.frame_height 0
        FramePerSecond := Double.toSizeT (ValueOrDefault Stats.frames_per_second (Double.fin 0))
        VideoTotalSent := VideoTotalSent
        VideoNackCount := toInt32 (ValueOrDefault Stats.nack_count 0)
        VideoPacketRetransmitted := toInt32 (ValueOrDefault Stats.retransmitted_packets_sent 0)
        QualityLimitationReason := GetOptionalStatString Stats.quality_limitation_reason
        ContentType := GetOptionalStatString Stats.content_type
        QualityLimitationResolutionChange :=
          ValueOrDefault Stats.quality_limitation_resolution_changes 0
        VideoBitrate :=
          match videoBitrateUpdate st.self.LastVideoStatTimestamp lastByteCount VideoTotalSent
              timestamp with
          | some bitrate => bitrate
          | none => st.self.VideoBitrate
        LastVideoStatTimestamp := Double.ofInt timestamp
        VideoCodec := get_codec Report Stats }
    NewTotalEncodeTime := ValueOrDefault Stats.total_encode_time (Double.fin 0)
    NewTotalEncodedFrames := Double.ofNat (ValueOrDefault Stats.frames_encoded 0) }

/-- The other (audio) branch of the outbound stream case of `OnStatsDelivered`. -/
def onAudioOutbound (Report : RTCStatsReport) (st : ScanState) (Stats : RTCStats) : ScanState :=
  let lastByteCount := st.self.AudioTotalSent
  let timestamp := Stats.timestamp_us
  let AudioTotalSent := ValueOrDefault Stats.bytes_sent 0
  { st with
    self :=
      { st.self with
        AudioTotalSent := AudioTotalSent
        AudioNackCount := toInt32 (ValueOrDefault Stats.nack_count 0)
        AudioPacketRetransmitted := toInt32 (ValueOrDefault Stats.retransmitted_packets_sent 0)
        AudioBitrate :=
          match audioBitrateUpdate st.self.LastAudioStatTimestamp lastByteCount AudioTotalSent
              timestamp with
          | some bitrate => bitrate
          | none => st.self.AudioBitrate
        LastAudioStatTimestamp := Double.ofInt timestamp
        AudioCodec := get_codec Report Stats } }

/-- The body of the loop `for (const webrtc::RTCStats& Stats : *Report)` of
`OnStatsDelivered`: dispatch on the type tag of the record. -/
def scanStep (Report : RTCStatsReport) (st : ScanState) (Stats : RTCStats) : ScanState :=
  if FStringEq Stats.type RTCOutboundRTPStreamStats_kType then
    if derefString Stats.kind = RTCMediaStreamTrackKind_kVideo then
      onVideoOutbound Report st Stats
    else
      onAudioOutbound Report st Stats
  else if FStringEq Stats.type RTCMediaStreamTrackStats_kType then
    if derefString Stats.kind = RTCMediaStreamTrackKind_kVideo then
      { st with
        self := { st.self with FramesDropped := toInt32 (ValueOrDefault Stats.frames_dropped 0) } }
    else
      st
  else if FStringEq Stats.type RTCIceCandidateStats_kType then
    { st with
      self :=
        { st.self with
          Rtt := Double.mul (ValueOrDefault Stats.current_round_trip_time (Double.fin 0))
            (Double.fin 1000) } }
  else
    st

/-- The guarded encode time average of `OnStatsDelivered`: `if (EncodedFramesDelta)` then
`(NewTotalEncodeTime - TotalEncodeTime) * 1000.0 / EncodedFramesDelta`.  The result is
`none` when the guard fails and no division is evaluated. -/
def avgEncodeTimeUpdate (TotalEncodedFrames TotalEncodeTime NewTotalEncodedFrames
    NewTotalEncodeTime : Double) : Option Double :=
  let EncodedFramesDelta := Double.sub NewTotalEncodedFrames TotalEncodedFrames
  if EncodedFramesDelta.isNonzero = true then
    let EncodeTimeDelta := Double.mul (Double.sub NewTotalEncodeTime TotalEncodeTime) (Double.fin 1000)
    some (Double.div EncodeTimeDelta EncodedFramesDelta)
  else
    none

/-- The guarded encode time average of `OnStatsDelivered` (the same lines of the source as
`avgEncodeTimeUpdate`) with every operation rounded to binary64. -/
def avgEncodeTimeUpdate64 (TotalEncodedFrames TotalEncodeTime NewTotalEncodedFrames
    NewTotalEncodeTime : Double) : Option Double :=
  let EncodedFramesDelta := Double.sub64 NewTotalEncodedFrames TotalEncodedFrames
  if EncodedFramesDelta.isNonzero = true then
    let EncodeTimeDelta :=
      Double.mul64 (Double.sub64 NewTotalEncodeTime TotalEncodeTime) (Double.fin 1000)
    some (Double.div64 EncodeTimeDelta EncodedFramesDelta)
  else
    none

/-- The scan of `OnStatsDelivered` over all records of the report, started with both
locals at `0`. -/
def scanReport (self : FRTCStatsCollector) (Report : RTCStatsReport) : ScanState :=
  Report.stats.foldl (scanStep Report)
    { self := self, NewTotalEncodedFrames := Double.fin 0, NewTotalEncodeTime := Double.fin 0 }

/-- Source: `FRTCStatsCollector::OnStatsDelivered`. -/
def FRTCStatsCollector.OnStatsDelivered (self : FRTCStatsCollector) (Report : RTCStatsReport) :
    FRTCStatsCollector :=
  let st := scanReport self Report
  let self := { st.self with Timestamp := Double.ofInt Report.timestamp_us }
  match avgEncodeTimeUpdate self.TotalEncodedFrames self.TotalEncodeTime st.NewTotalEncodedFrames
      st.NewTotalEncodeTime with
  | some avg =>
      { self with
        AvgEncodeTime := avg
        TotalEncodedFrames := st.NewTotalEncodedFrames
        TotalEncodeTime := st.NewTotalEncodeTime }
  | none => self


/-! ## Record classes and concrete records -/

/-- The records that `scanStep` sends to the video branch of the outbound stream case. -/
def isVideoOutbound (Stats : RTCStats) : Prop :=
  FStringEq Stats.type RTCOutboundRTPStreamStats_kType ∧
    derefString Stats.kind = RTCMediaStreamTrackKind_kVideo

instance (Stats : RTCStats) : Decidable (isVideoOutbound Stats) := by
  unfold isVideoOutbound
  infer_instance

/-- The records that `scanStep` sends to the other (audio) branch of the outbound stream
case. -/
def isAudioOutbound (Stats : RTCStats) : Prop :=
  FStringEq Stats.type RTCOutboundRTPStreamStats_kType ∧
    derefString Stats.kind ≠ RTCMediaStreamTrackKind_kVideo

instance (Stats : RTCStats) : Decidable (isAudioOutbound Stats) := by
  unfold isAudioOutbound
  infer_instance

/-- The records that `scanStep` sends to the media track case and that are of the video
kind. -/
def isVideoTrack (Stats : RTCStats) : Prop :=
  ¬ FStringEq Stats.type RTCOutboundRTPStreamStats_kType ∧
    FStringEq Stats.type RTCMediaStreamTrackStats_kType ∧
    derefString Stats.kind = RTCMediaStreamTrackKind_kVideo

instance (Stats : RTCStats) : Decidable (isVideoTrack Stats) := by
  unfold isVideoTrack
  infer_instance

/-- The records that `scanStep` sends to the round trip time branch. -/
def isIceDispatched (Stats : RTCStats) : Prop :=
  ¬ FStringEq Stats.type RTCOutboundRTPStreamStats_kType ∧
    ¬ FStringEq Stats.type RTCMediaStreamTrackStats_kType ∧
    FStringEq Stats.type RTCIceCandidateStats_kType

instance (Stats : RTCStats) : Decidable (isIceDispatched Stats) := by
  unfold isIceDispatched
  infer_instance

/-- The branches of the loop body of `OnStatsDelivered`. -/
inductive Branch where
  | video
  | audio
  | track
  | ice
  | skip
  deriving DecidableEq

/-- The branch of `scanStep` that a record reaches (`skip`: no branch changes the state). -/
def branchOf (Stats : RTCStats) : Branch :=
  if FStringEq Stats.type RTCOutboundRTPStreamStats_kType then
    if derefString Stats.kind = RTCMediaStreamTrackKind_kVideo then Branch.video
    else Branch.audio
  else if FStringEq Stats.type RTCMediaStreamTrackStats_kType then
    if derefString Stats.kind = RTCMediaStreamTrackKind_kVideo then Branch.track
    else Branch.skip
  else if FStringEq Stats.type RTCIceCandidateStats_kType then Branch.ice
  else Branch.skip

/-- The codec records of a list: what `GetStatsOfType<webrtc::RTCCodecStats>` selects. -/
def codecRecords (stats : List RTCStats) : List RTCStats :=
  stats.filter (fun e => decide (e.type = RTCCodecStats_kType))

/-- A record with the given type tag, identifier and timestamp and no member defined. -/
def RTCStats.blank (type id : String) (timestamp_us : Int) : RTCStats :=
  { type := type, id := id, timestamp_us := timestamp_us, kind := none, codec_id := none,
    mime_type := none, frame_width := none, frame_height := none, frames_per_second := none,
    bytes_sent := none, total_encode_time := none, frames_encoded := none, nack_count := none,
    retransmitted_packets_sent := none, quality_limitation_reason := none, content_type := none,
    quality_limitation_resolution_changes := none, frames_dropped := none,
    current_round_trip_time := none }

/-- A video outbound stream record that defines `bytes_sent` only. -/
def videoBytesRecord (timestamp_us : Int) (bytes_sent : Nat) : RTCStats :=
  { RTCStats.blank RTCOutboundRTPStreamStats_kType "RTCOutboundRTPVideoStream_1" timestamp_us with
    kind := some "video", bytes_sent := some bytes_sent }

/-- An audio outbound stream record that defines `bytes_sent` only. -/
def audioBytesRecord (timestamp_us : Int) (bytes_sent : Nat) : RTCStats :=
  { RTCStats.blank RTCOutboundRTPStreamStats_kType "RTCOutboundRTPAudioStream_2" timestamp_us with
    kind := some "audio", bytes_sent := some bytes_sent }

/-- A video outbound stream record that defines the frame size, the frame rate and
`bytes_sent`. -/
def videoFrameRecord (timestamp_us : Int) (frame_width frame_height : Nat)
    (frames_per_second : Double) (bytes_sent : Nat) : RTCStats :=
  { videoBytesRecord timestamp_us bytes_sent with
    frame_width := some frame_width, frame_height := some frame_height,
    frames_per_second := some frames_per_second }

/-- A video outbound stream record that defines `frames_encoded` and `total_encode_time`
only. -/
def videoEncodeRecord (timestamp_us : Int) (frames_encoded : Nat) (total_encode_time : Double) :
    RTCStats :=
  { RTCStats.blank RTCOutboundRTPStreamStats_kType "RTCOutboundRTPVideoStream_1" timestamp_us with
    kind := some "video", frames_encoded := some frames_encoded,
    total_encode_time := some total_encode_time }

/-- A video outbound stream record that defines `bytes_sent` (1000) and
`quality_limitation_reason`. -/
def videoReasonRecord (timestamp_us : Int) (quality_limitation_reason : String) : RTCStats :=
  { videoBytesRecord timestamp_us 1000 with
    quality_limitation_reason := some quality_limitation_reason }

/-- A candidate pair record (type tag `RTCIceCandidatePairStats::kType`) that defines
`current_round_trip_time` only. -/
def candidatePairRecord (timestamp_us : Int) (current_round_trip_time : Double) : RTCStats :=
  { RTCStats.blank RTCIceCandidatePairStats_kType "RTCIceCandidatePair_3" timestamp_us with
    current_round_trip_time := some current_round_trip_time }

/-- A codec record with the given identifier and MIME type. -/
def codecRecord (timestamp_us : Int) (id mime_type : String) : RTCStats :=
  { RTCStats.blank RTCCodecStats_kType id timestamp_us with mime_type := some mime_type }

/-- The report that holds the single record `Stats` and carries its timestamp. -/
def singleReport (Stats : RTCStats) : RTCStatsReport :=
  { timestamp_us := Stats.timestamp_us, stats := [Stats] }

/-! ## The part of the scan state owned by each branch -/

/-- The members written by the video branch, and the encode totals read after the scan. -/
structure VideoView where
  VideoBitrate : Double
  VideoTotalSent : Nat
  LastVideoStatTimestamp : Double
  Width : Nat
  Height : Nat
  FramePerSecond : Nat
  VideoNackCount : Int
  VideoPacketRetransmitted : Int
  QualityLimitationReason : Option String
  ContentType : Option String
  QualityLimitationResolutionChange : Nat
  VideoCodec : String
  NewTotalEncodedFrames : Double
  NewTotalEncodeTime : Double
  TotalEncodedFrames : Double
  TotalEncodeTime : Double
  AvgEncodeTime : Double

/-- The video view of a scan state. -/
def videoView (st : ScanState) : VideoView :=
  { VideoBitrate := st.self.VideoBitrate
    VideoTotalSent := st.self.VideoTotalSent
    LastVideoStatTimestamp := st.self.LastVideoStatTimestamp
    Width := st.self.Width
    Height := st.self.Height
    FramePerSecond := st.self.FramePerSecond
    VideoNackCount := st.self.VideoNackCount
    VideoPacketRetransmitted := st.self.VideoPacketRetransmitted
    QualityLimitationReason := st.self.QualityLimitationReason
    ContentType := st.self.ContentType
    QualityLimitationResolutionChange := st.self.QualityLimitationResolutionChange
    VideoCodec := st.self.VideoCodec
    NewTotalEncodedFrames := st.NewTotalEncodedFrames
    NewTotalEncodeTime := st.NewTotalEncodeTime
    TotalEncodedFrames := st.self.TotalEncodedFrames
    TotalEncodeTime := st.self.TotalEncodeTime
    AvgEncodeTime := st.self.AvgEncodeTime }

/-- The members written by the audio branch. -/
structure AudioView where
  AudioBitrate : Double
  AudioTotalSent : Nat
  LastAudioStatTimestamp : Double
  AudioNackCount : Int
  AudioPacketRetransmitted : Int
  AudioCodec : String

/-- The audio view of a scan state. -/
def audioView (st : ScanState) : AudioView :=
  { AudioBitrate := st.self.AudioBitrate
    AudioTotalSent := st.self.AudioTotalSent
    LastAudioStatTimestamp := st.self.LastAudioStatTimestamp
    AudioNackCount := st.self.AudioNackCount
    AudioPacketRetransmitted := st.self.AudioPacketRetransmitted
    AudioCodec := st.self.AudioCodec }

/-- The start of the scan of `OnStatsDelivered` on the collector `self`. -/
def scanStart (self : FRTCStatsCollector) : ScanState :=
  { self := self, NewTotalEncodedFrames := Double.fin 0, NewTotalEncodeTime := Double.fin 0 }

/-! ## Lemmas on the scan -/

@[simp]
theorem FStringEq_self (s : String) : FStringEq s s ↔ True :=
  iff_true_intro rfl

theorem scanStep_of_isVideoOutbound (Report : RTCStatsReport) (st : ScanState) (Stats : RTCStats)
    (h : isVideoOutbound Stats) : scanStep Report st Stats = onVideoOutbound Report st Stats := by
  unfold scanStep
  rw [if_pos h.1, if_pos h.2]

theorem scanStep_of_isAudioOutbound (Report : RTCStatsReport) (st : ScanState) (Stats : RTCStats)
    (h : isAudioOutbound Stats) : scanStep Report st Stats = onAudioOutbound Report st Stats := by
  unfold scanStep
  rw [if_pos h.1, if_neg h.2]

theorem videoView_scanStep_of_not (Report : RTCStatsReport) (st : ScanState) (Stats : RTCStats)
    (h : ¬ isVideoOutbound Stats) : videoView (scanStep Report st Stats) = videoView st := by
  unfold scanStep
  split_ifs with h1 h2 h3 h4 h5
  · exact absurd ⟨h1, h2⟩ h
  · simp only [videoView, onAudioOutbound]
  · simp only [videoView]
  · rfl
  · simp only [videoView]
  · rfl

theorem audioView_scanStep_of_not (Report : RTCStatsReport) (st : ScanState) (Stats : RTCStats)
    (h : ¬ isAudioOutbound Stats) : audioView (scanStep Report st Stats) = audioView st := by
  unfold scanStep
  split_ifs with h1 h2 h3 h4 h5
  · simp only [audioView, onVideoOutbound]
  · exact absurd ⟨h1, h2⟩ h
  · simp only [audioView]
  · rfl
  · simp only [audioView]
  · rfl

theorem videoView_foldl_of_not (Report : RTCStatsReport) (l : List RTCStats)
    (h : ∀ x ∈ l, ¬ isVideoOutbound x) (st : ScanState) :
    videoView (l.foldl (scanStep Report) st) = videoView st := by
  induction l generalizing st with
  | nil => rfl
  | cons x xs ih =>
    rw [List.foldl_cons, ih (fun y hy => h y (List.mem_cons_of_mem x hy)),
      videoView_scanStep_of_not Report st x (h x (List.mem_cons_self x xs))]

theorem audioView_foldl_of_not (Report : RTCStatsReport) (l : List RTCStats)
    (h : ∀ x ∈ l, ¬ isAudioOutbound x) (st : ScanState) :
    audioView (l.foldl (scanStep Report) st) = audioView st := by
  induction l generalizing st with
  | nil => rfl
  | cons x xs ih =>
    rw [List.foldl_cons, ih (fun y hy => h y (List.mem_cons_of_mem x hy)),
      audioView_scanStep_of_not Report st x (h x (List.mem_cons_self x xs))]

theorem videoView_onVideoOutbound_congr (Report : RTCStatsReport) (st1 st2 : ScanState)
    (Stats : RTCStats) (h : videoView st1 = videoView st2) :
    videoView (onVideoOutbound Report st1 Stats) = videoView (onVideoOutbound Report st2 Stats) := by
  have hb := congrArg VideoView.VideoBitrate h
  have ht := congrArg VideoView.VideoTotalSent h
  have hl := congrArg VideoView.LastVideoStatTimestamp h
  have hf := congrArg VideoView.TotalEncodedFrames h
  have he := congrArg VideoView.TotalEncodeTime h
  have ha := congrArg VideoView.AvgEncodeTime h
  simp only [videoView] at hb ht hl hf he ha
  simp only [videoView, onVideoOutbound, hb, ht, hl, hf, he, ha]

theorem audioView_onAudioOutbound_congr (Report : RTCStatsReport) (st1 st2 : ScanState)
    (Stats : RTCStats) (h : audioView st1 = audioView st2) :
    audioView (onAudioOutbound Report st1 Stats) = audioView (onAudioOutbound Report st2 Stats) := by
  have hb := congrArg AudioView.AudioBitrate h
  have ht := congrArg AudioView.AudioTotalSent h
  have hl := congrArg AudioView.LastAudioStatTimestamp h
  simp only [audioView] at hb ht hl
  simp only [audioView, onAudioOutbound, hb, ht, hl]

/-- In a report whose only video outbound stream record is `Stats`, the video view after the
scan is the one the video branch produces from the collector as it was before the
delivery. -/
theorem videoView_scanReport (self : FRTCStatsCollector) (T : Int) (pre post : List RTCStats)
    (Stats : RTCStats) (hv : isVideoOutbound Stats)
    (hpre : ∀ x ∈ pre, ¬ isVideoOutbound x) (hpost : ∀ x ∈ post, ¬ isVideoOutbound x) :
    videoView (scanReport self { timestamp_us := T, stats := pre ++ Stats :: post }) =
      videoView (onVideoOutbound { timestamp_us := T, stats := pre ++ Stats :: post }
        (scanStart self) Stats) := by
  unfold scanReport
  simp only [List.foldl_append, List.foldl_cons]
  rw [videoView_foldl_of_not _ post hpost, scanStep_of_isVideoOutbound _ _ _ hv]
  exact videoView_onVideoOutbound_congr _ _ _ _ (videoView_foldl_of_not _ pre hpre _)

/-- In a report whose only audio outbound stream record is `Stats`, the audio view after the
scan is the one the audio branch produces from the collector as it was before the
delivery. -/
theorem audioView_scanReport (self : FRTCStatsCollector) (T : Int) (pre post : List RTCStats)
    (Stats : RTCStats) (ha : isAudioOutbound Stats)
    (hpre : ∀ x ∈ pre, ¬ isAudioOutbound x) (hpost : ∀ x ∈ post, ¬ isAudioOutbound x) :
    audioView (scanReport self { timestamp_us := T, stats := pre ++ Stats :: post }) =
      audioView (onAudioOutbound { timestamp_us := T, stats := pre ++ Stats :: post }
        (scanStart self) Stats) := by
  unfold scanReport
  simp only [List.foldl_append, List.foldl_cons]
  rw [audioView_foldl_of_not _ post hpost, scanStep_of_isAudioOutbound _ _ _ ha]
  exact audioView_onAudioOutbound_congr _ _ _ _ (audioView_foldl_of_not _ pre hpre _)

/-- The members that the code after the scan leaves as the scan produced them. -/
theorem OnStatsDelivered_scan_fields (self : FRTCStatsCollector) (Report : RTCStatsReport) :
    (self.OnStatsDelivered Report).VideoBitrate = (scanReport self Report).self.VideoBitrate ∧
    (self.OnStatsDelivered Report).AudioBitrate = (scanReport self Report).self.AudioBitrate ∧
    (self.OnStatsDelivered Report).VideoTotalSent = (scanReport self Report).self.VideoTotalSent ∧
    (self.OnStatsDelivered Report).AudioTotalSent = (scanReport self Report).self.AudioTotalSent ∧
    (self.OnStatsDelivered Report).LastVideoStatTimestamp =
      (scanReport self Report).self.LastVideoStatTimestamp ∧
    (self.OnStatsDelivered Report).LastAudioStatTimestamp =
      (scanReport self Report).self.LastAudioStatTimestamp ∧
    (self.OnStatsDelivered Report).Width = (scanReport self Report).self.Width ∧
    (self.OnStatsDelivered Report).Height = (scanReport self Report).self.Height ∧
    (self.OnStatsDelivered Report).FramePerSecond = (scanReport self Report).self.FramePerSecond ∧
    (self.OnStatsDelivered Report).Rtt = (scanReport self Report).self.Rtt := by
  unfold FRTCStatsCollector.OnStatsDelivered
  simp only
  split <;> simp


/-- The effect of a delivery on the members written by the video branch, for a report whose
only video outbound stream record is `Stats`. -/
theorem OnStatsDelivered_video (self : FRTCStatsCollector) (T : Int) (pre post : List RTCStats)
    (Stats : RTCStats) (hv : isVideoOutbound Stats)
    (hpre : ∀ x ∈ pre, ¬ isVideoOutbound x) (hpost : ∀ x ∈ post, ¬ isVideoOutbound x) :
    (self.OnStatsDelivered { timestamp_us := T, stats := pre ++ Stats :: post }).VideoBitrate =
      (match videoBitrateUpdate self.LastVideoStatTimestamp self.VideoTotalSent
          (ValueOrDefault Stats.bytes_sent 0) Stats.timestamp_us with
        | some bitrate => bitrate
        | none => self.VideoBitrate) ∧
    (self.OnStatsDelivered { timestamp_us := T, stats := pre ++ Stats :: post }).VideoTotalSent =
      ValueOrDefault Stats.bytes_sent 0 ∧
    (self.OnStatsDelivered
        { timestamp_us := T, stats := pre ++ Stats :: post }).LastVideoStatTimestamp =
      Double.ofInt Stats.timestamp_us ∧
    (self.OnStatsDelivered { timestamp_us := T, stats := pre ++ Stats :: post }).Width =
      ValueOrDefault Stats.frame_width 0 ∧
    (self.OnStatsDelivered { timestamp_us := T, stats := pre ++ Stats :: post }).Height =
      ValueOrDefault Stats.frame_height 0 ∧
    (self.OnStatsDelivered { timestamp_us := T, stats := pre ++ Stats :: post }).FramePerSecond =
      Double.toSizeT (ValueOrDefault Stats.frames_per_second (Double.fin 0)) := by
  have hview := videoView_scanReport self T pre post Stats hv hpre hpost
  have hf := OnStatsDelivered_scan_fields self { timestamp_us := T, stats := pre ++ Stats :: post }
  have h1 := congrArg VideoView.VideoBitrate hview
  have h2 := congrArg VideoView.VideoTotalSent hview
  have h3 := congrArg VideoView.LastVideoStatTimestamp hview
  have h4 := congrArg VideoView.Width hview
  have h5 := congrArg VideoView.Height hview
  have h6 := congrArg VideoView.FramePerSecond hview
  simp only [videoView, onVideoOutbound, scanStart] at h1 h2 h3 h4 h5 h6
  obtain ⟨f1, -, f3, -, f5, -, f7, f8, f9, -⟩ := hf
  exact ⟨f1.trans h1, f3.trans h2, f5.trans h3, f7.trans h4, f8.trans h5, f9.trans h6⟩

/-- The effect of a delivery on the members written by the audio branch, for a report whose
only audio outbound stream record is `Stats`. -/
theorem OnStatsDelivered_audio (self : FRTCStatsCollector) (T : Int) (pre post : List RTCStats)
    (Stats : RTCStats) (ha : isAudioOutbound Stats)
    (hpre : ∀ x ∈ pre, ¬ isAudioOutbound x) (hpost : ∀ x ∈ post, ¬ isAudioOutbound x) :
    (self.OnStatsDelivered { timestamp_us := T, stats := pre ++ Stats :: post }).AudioBitrate =
      (match audioBitrateUpdate self.LastAudioStatTimestamp self.AudioTotalSent
          (ValueOrDefault Stats.bytes_sent 0) Stats.timestamp_us with
        | some bitrate => bitrate
        | none => self.AudioBitrate) ∧
    (self.OnStatsDelivered { timestamp_us := T, stats := pre ++ Stats :: post }).AudioTotalSent =
      ValueOrDefault Stats.bytes_sent 0 ∧
    (self.OnStatsDelivered
        { timestamp_us := T, stats := pre ++ Stats :: post }).LastAudioStatTimestamp =
      Double.ofInt Stats.timestamp_us := by
  have hview := audioView_scanReport self T pre post Stats ha hpre hpost
  have hf := OnStatsDelivered_scan_fields self { timestamp_us := T, stats := pre ++ Stats :: post }
  have h1 := congrArg AudioView.AudioBitrate hview
  have h2 := congrArg AudioView.AudioTotalSent hview
  have h3 := congrArg AudioView.LastAudioStatTimestamp hview
  simp only [audioView, onAudioOutbound, scanStart] at h1 h2 h3
  obtain ⟨-, f2, -, f4, -, f6, -⟩ := hf
  exact ⟨f2.trans h1, f4.trans h2, f6.trans h3⟩

/-- Without wrap-around the `size_t` difference and its product with `NUM_US` are the
mathematical ones. -/
theorem mulSizeT_subSizeT_of_lt (p b : Nat) (hpb : p < b) (hb : b < 2 ^ 64)
    (hno : (b - p) * 1000000 < 2 ^ 64) :
    mulSizeT (subSizeT b p) NUM_US = (b - p) * 1000000 := by
  unfold mulSizeT subSizeT NUM_US
  norm_num at hb hno ⊢
  omega

/-- The value of the guarded video bitrate computation when the guard holds and nothing
wraps around. -/
theorem videoBitrateUpdate_of_gt (tp : ℚ) (p b : Nat) (t : Int) (htp : tp ≠ 0) (hpb : p < b)
    (hb : b < 2 ^ 64) (hno : (b - p) * 1000000 < 2 ^ 64) (ht : tp < (t : ℚ)) :
    videoBitrateUpdate (Double.fin tp) p b t =
      some (Double.fin (((b : ℚ) - (p : ℚ)) * 8 * 1000000 / ((t : ℚ) - tp))) := by
  have hne : (t : ℚ) - tp ≠ 0 := sub_ne_zero.mpr (ne_of_gt ht)
  have hg : (Double.fin tp).isNonzero = true ∧ b ≠ p := by
    refine ⟨?_, Nat.ne_of_gt hpb⟩
    simp [Double.isNonzero, htp]
  unfold videoBitrateUpdate
  rw [if_pos hg, mulSizeT_subSizeT_of_lt p b hpb hb hno]
  simp only [Double.ofNat, Double.ofInt, Double.mul, Double.sub, Double.neg, Double.add,
    Double.div]
  have hne2 : (t : ℚ) + -tp ≠ 0 := by rwa [← sub_eq_add_neg]
  rw [if_neg hne2]
  congr 2
  push_cast [Nat.cast_sub (le_of_lt hpb)]
  ring

/-- The guarded video bitrate computation evaluates nothing when the byte count is
unchanged or the stored timestamp is zero. -/
theorem videoBitrateUpdate_none (last : Double) (p b : Nat) (t : Int)
    (h : b = p ∨ last = Double.fin 0) : videoBitrateUpdate last p b t = none := by
  unfold videoBitrateUpdate
  rw [if_neg]
  rintro ⟨h1, h2⟩
  rcases h with h | h
  · exact h2 h
  · rw [h] at h1
    simp [Double.isNonzero] at h1

/-- The guarded audio bitrate computation evaluates nothing when the byte count is
unchanged or the stored timestamp is zero. -/
theorem audioBitrateUpdate_none (last : Double) (p b : Nat) (t : Int)
    (h : b = p ∨ last = Double.fin 0) : audioBitrateUpdate last p b t = none := by
  unfold audioBitrateUpdate
  rw [if_neg]
  rintro ⟨h1, h2⟩
  rcases h with h | h
  · exact h2 h
  · rw [h] at h1
    simp [Double.isNonzero] at h1

theorem isVideoOutbound_videoBytesRecord (t : Int) (b : Nat) :
    isVideoOutbound (videoBytesRecord t b) := by
  simp [isVideoOutbound, videoBytesRecord, RTCStats.blank, derefString,
    RTCMediaStreamTrackKind_kVideo]

theorem isVideoOutbound_videoReasonRecord (t : Int) (s : String) :
    isVideoOutbound (videoReasonRecord t s) := by
  simp [isVideoOutbound, videoReasonRecord, videoBytesRecord, RTCStats.blank, derefString,
    RTCMediaStreamTrackKind_kVideo]

theorem isAudioOutbound_audioBytesRecord (t : Int) (b : Nat) :
    isAudioOutbound (audioBytesRecord t b) := by
  simp [isAudioOutbound, audioBytesRecord, RTCStats.blank, derefString,
    RTCMediaStreamTrackKind_kVideo]

/-! ## Lemmas on the rounding to binary64 -/

/-- The nearest integer is at most one half away. -/
theorem roundHalfEven_bounds (q : ℚ) :
    q - 1 / 2 ≤ (roundHalfEven q : ℚ) ∧ (roundHalfEven q : ℚ) ≤ q + 1 / 2 := by
  have h1 := Int.floor_le q
  have h2 := Int.lt_floor_add_one q
  unfold roundHalfEven
  split_ifs with a b c
  · constructor <;> linarith
  · push_cast
    constructor <;> linarith
  · constructor <;> linarith
  · push_cast
    constructor <;> linarith

/-- An integer rounds to itself. -/
theorem roundHalfEven_intCast (z : ℤ) : roundHalfEven (z : ℚ) = z := by
  unfold roundHalfEven
  simp

/-- Rounding to the nearest integer is monotone. -/
theorem roundHalfEven_mono {q q' : ℚ} (h : q ≤ q') : roundHalfEven q ≤ roundHalfEven q' := by
  have hf : ⌊q⌋ ≤ ⌊q'⌋ := Int.floor_mono h
  rcases lt_or_eq_of_le hf with hlt | heq
  · have h1 : roundHalfEven q ≤ ⌊q⌋ + 1 := by
      unfold roundHalfEven
      split_ifs <;> omega
    have h2 : ⌊q'⌋ ≤ roundHalfEven q' := by
      unfold roundHalfEven
      split_ifs <;> omega
    omega
  · unfold roundHalfEven
    rw [← heq]
    split_ifs <;> first | omega | (exfalso; linarith)

/-- An integer less than one half away is the nearest integer. -/
theorem roundHalfEven_eq_of_abs_lt (q : ℚ) (m : ℤ) (h : |q - (m : ℚ)| < 1 / 2) :
    roundHalfEven q = m := by
  obtain ⟨h1, h2⟩ := roundHalfEven_bounds q
  rw [abs_lt] at h
  have h3 : ((roundHalfEven q - m : ℤ) : ℚ) < 1 := by push_cast; linarith
  have h4 : (-1 : ℚ) < ((roundHalfEven q - m : ℤ) : ℚ) := by push_cast; linarith
  have h5 : roundHalfEven q - m < 1 := by exact_mod_cast h3
  have h6 : -1 < roundHalfEven q - m := by exact_mod_cast h4
  omega

/-- A tie goes to the even neighbour. -/
theorem roundHalfEven_tie (f : ℤ) :
    roundHalfEven ((f : ℚ) + 1 / 2) = if f % 2 = 0 then f else f + 1 := by
  have hfl : ⌊(f : ℚ) + 1 / 2⌋ = f := by
    rw [Int.floor_eq_iff]
    constructor <;> linarith
  unfold roundHalfEven
  rw [hfl]
  have h1 : ¬ ((f : ℚ) + 1 / 2 - (f : ℚ) < 1 / 2) := by
    rw [add_sub_cancel_left]
    exact lt_irrefl _
  have h2 : ¬ ((1 : ℚ) / 2 < (f : ℚ) + 1 / 2 - (f : ℚ)) := by
    rw [add_sub_cancel_left]
    exact lt_irrefl _
  rw [if_neg h1, if_neg h2]

/-- The exponent of the unit in the last place of a value in the binade `[2^k, 2^(k+1))`. -/
theorem ulpExponent_eq (x : ℚ) (k : ℤ) (h1 : (2 : ℚ) ^ k ≤ |x|) (h2 : |x| < (2 : ℚ) ^ (k + 1)) :
    ulpExponent x = max (k - 52) (-1074) := by
  have hpos : (0 : ℚ) < |x| := lt_of_lt_of_le (by positivity) h1
  have hlog : Int.log 2 |x| = k := by
    have a : k ≤ Int.log 2 |x| :=
      (Int.zpow_le_iff_le_log (by norm_num) hpos).mp (by exact_mod_cast h1)
    have b : Int.log 2 |x| < k + 1 :=
      (Int.lt_zpow_iff_log_lt (by norm_num) hpos).mp (by exact_mod_cast h2)
    omega
  unfold ulpExponent
  rw [hlog]

/-- Evaluation of `round64` from the binade of `x` and an integer less than one half away
from the scaled value. -/
theorem round64_eq (x : ℚ) (k m : ℤ) (h1 : (2 : ℚ) ^ k ≤ |x|) (h2 : |x| < (2 : ℚ) ^ (k + 1))
    (hm : |x / 2 ^ (max (k - 52) (-1074)) - (m : ℚ)| < 1 / 2) :
    round64 x = (m : ℚ) * 2 ^ (max (k - 52) (-1074)) := by
  unfold round64
  rw [ulpExponent_eq x k h1 h2, roundHalfEven_eq_of_abs_lt _ m hm]

/-- The rounding of a value that is not negative is not negative. -/
theorem round64_nonneg {x : ℚ} (h : 0 ≤ x) : 0 ≤ round64 x := by
  unfold round64
  have hp : (0 : ℚ) < 2 ^ ulpExponent x := zpow_pos (by norm_num) _
  have h0 : (0 : ℤ) ≤ roundHalfEven (x / 2 ^ ulpExponent x) := by
    have := roundHalfEven_mono (div_nonneg h hp.le)
    rwa [show ((0 : ℚ)) = ((0 : ℤ) : ℚ) by norm_num, roundHalfEven_intCast] at this
  have h0' : (0 : ℚ) ≤ (roundHalfEven (x / 2 ^ ulpExponent x) : ℚ) := by exact_mod_cast h0
  exact mul_nonneg h0' hp.le

/-- The rounding of a value that is not positive is not positive. -/
theorem round64_nonpos {x : ℚ} (h : x ≤ 0) : round64 x ≤ 0 := by
  unfold round64
  have hp : (0 : ℚ) < 2 ^ ulpExponent x := zpow_pos (by norm_num) _
  have h0 : roundHalfEven (x / 2 ^ ulpExponent x) ≤ (0 : ℤ) := by
    have := roundHalfEven_mono (div_nonpos_of_nonpos_of_nonneg h hp.le)
    rwa [show ((0 : ℚ)) = ((0 : ℤ) : ℚ) by norm_num, roundHalfEven_intCast] at this
  have h0' : (roundHalfEven (x / 2 ^ ulpExponent x) : ℚ) ≤ 0 := by exact_mod_cast h0
  exact mul_nonpos_of_nonpos_of_nonneg h0' hp.le

/-- The binade of a nonzero rational. -/
theorem log_bounds {x : ℚ} (hx : x ≠ 0) :
    (2 : ℚ) ^ Int.log 2 |x| ≤ |x| ∧ |x| < (2 : ℚ) ^ (Int.log 2 |x| + 1) := by
  have hpos : (0 : ℚ) < |x| := abs_pos.mpr hx
  have h1 := Int.zpow_log_le_self (b := 2) (by norm_num) hpos
  have h2 := Int.lt_zpow_succ_log_self (b := 2) (by norm_num) |x|
  exact ⟨by exact_mod_cast h1, by exact_mod_cast h2⟩

/-- The value scaled by its unit in the last place is below `2^53`. -/
theorem scaled_abs_lt (x : ℚ) : |x / 2 ^ ulpExponent x| < 2 ^ (53 : ℕ) := by
  have hp : (0 : ℚ) < 2 ^ ulpExponent x := zpow_pos (by norm_num) _
  rw [abs_div, abs_of_pos hp, div_lt_iff₀ hp]
  by_cases hx : x = 0
  · rw [hx, abs_zero]
    positivity
  · obtain ⟨-, h2⟩ := log_bounds hx
    have he : Int.log 2 |x| - 52 ≤ ulpExponent x := le_max_left _ _
    have h3 : (2 : ℚ) ^ (Int.log 2 |x| + 1) ≤ 2 ^ (53 : ℕ) * 2 ^ ulpExponent x := by
      rw [← zpow_natCast, ← zpow_add₀ (by norm_num : (2 : ℚ) ≠ 0)]
      apply zpow_le_zpow_right₀ (by norm_num)
      push_cast
      omega
    linarith

/-- The significand of a rounded value is at most `2^53`. -/
theorem round64_abs_le (x : ℚ) :
    |(roundHalfEven (x / 2 ^ ulpExponent x) : ℚ)| ≤ 2 ^ (53 : ℕ) := by
  have h := scaled_abs_lt x
  rw [abs_lt] at h
  have h1 := roundHalfEven_mono h.2.le
  have h2 := roundHalfEven_mono h.1.le
  rw [show ((2 : ℚ) ^ (53 : ℕ)) = (((2 : ℤ) ^ (53 : ℕ) : ℤ) : ℚ) by norm_num,
    roundHalfEven_intCast] at h1
  rw [show (-(2 : ℚ) ^ (53 : ℕ)) = (((-(2 : ℤ) ^ (53 : ℕ)) : ℤ) : ℚ) by norm_num,
    roundHalfEven_intCast] at h2
  rw [abs_le]
  constructor
  · exact_mod_cast h2
  · exact_mod_cast h1

/-- Zero rounds to zero. -/
theorem round64_zero : round64 0 = 0 := by
  unfold round64
  rw [zero_div, show ((0 : ℚ)) = ((0 : ℤ) : ℚ) by norm_num, roundHalfEven_intCast]
  simp

/-- A value `m * 2^k` with `|m| < 2^53` and `k ≥ -1074` is a fixed point of the rounding. -/
theorem round64_of_repr (m k : ℤ) (hm : |m| < 2 ^ (53 : ℕ)) (hk : -1074 ≤ k) :
    round64 ((m : ℚ) * 2 ^ k) = (m : ℚ) * 2 ^ k := by
  have h2 : (2 : ℚ) ≠ 0 := by norm_num
  by_cases hm0 : m = 0
  · rw [hm0]
    simp only [Int.cast_zero, zero_mul]
    exact round64_zero
  have he : ulpExponent ((m : ℚ) * 2 ^ k) ≤ k := by
    unfold ulpExponent
    apply max_le _ hk
    have hx : (m : ℚ) * 2 ^ k ≠ 0 :=
      mul_ne_zero (by exact_mod_cast hm0) (zpow_ne_zero _ h2)
    have hpos : (0 : ℚ) < |(m : ℚ) * 2 ^ k| := abs_pos.mpr hx
    have hlt : |(m : ℚ) * 2 ^ k| < (2 : ℚ) ^ (53 + k) := by
      rw [abs_mul, abs_of_pos (zpow_pos (by norm_num : (0 : ℚ) < 2) k), zpow_add₀ h2]
      apply mul_lt_mul_of_pos_right _ (zpow_pos (by norm_num) k)
      have : ((|m| : ℤ) : ℚ) < (((2 : ℤ) ^ (53 : ℕ) : ℤ) : ℚ) := by exact_mod_cast hm
      push_cast at this
      exact lt_of_lt_of_le this (by norm_num)
    have := (Int.lt_zpow_iff_log_lt (b := 2) (by norm_num) hpos).mp (by exact_mod_cast hlt)
    omega
  unfold round64
  obtain ⟨n, hn⟩ := Int.eq_ofNat_of_zero_le (sub_nonneg.mpr he)
  have hq : (m : ℚ) * 2 ^ k / 2 ^ ulpExponent ((m : ℚ) * 2 ^ k) = ((m * 2 ^ n : ℤ) : ℚ) := by
    rw [mul_div_assoc, ← zpow_sub₀ h2, hn]
    push_cast
    rw [zpow_natCast]
  rw [hq, roundHalfEven_intCast]
  push_cast
  rw [mul_assoc, ← zpow_natCast, ← hn, ← zpow_add₀ h2]
  congr 2
  omega

/-- The rounding is idempotent. -/
theorem round64_round64 (x : ℚ) : round64 (round64 x) = round64 x := by
  have hb := round64_abs_le x
  have hb' : |roundHalfEven (x / 2 ^ ulpExponent x)| ≤ 2 ^ (53 : ℕ) := by
    have : ((|roundHalfEven (x / 2 ^ ulpExponent x)| : ℤ) : ℚ) ≤ (((2 : ℤ) ^ (53 : ℕ) : ℤ) : ℚ) := by
      push_cast
      exact le_trans hb (by norm_num)
    exact_mod_cast this
  have he : -1074 ≤ ulpExponent x := le_max_right _ _
  rcases lt_or_eq_of_le hb' with hlt | heq
  · exact round64_of_repr _ _ hlt he
  · have h2 : (2 : ℚ) ≠ 0 := by norm_num
    have hr : round64 x =
        ((roundHalfEven (x / 2 ^ ulpExponent x) / 2 : ℤ) : ℚ) * 2 ^ (ulpExponent x + 1) := by
      unfold round64
      have hev : roundHalfEven (x / 2 ^ ulpExponent x) =
          2 * (roundHalfEven (x / 2 ^ ulpExponent x) / 2) := by
        rcases abs_eq (by norm_num : (0 : ℤ) ≤ 2 ^ (53 : ℕ)) |>.mp heq with h | h <;>
        · rw [h]
          norm_num
      rw [zpow_add₀ h2, zpow_one]
      conv_lhs => rw [hev]
      push_cast
      ring
    rw [hr]
    apply round64_of_repr
    · rcases abs_eq (by norm_num : (0 : ℤ) ≤ 2 ^ (53 : ℕ)) |>.mp heq with h | h <;>
      · rw [h]
        norm_num
    · omega

/-- The nearest integer is less than one half away, or exactly one half away and even. -/
theorem roundHalfEven_spec (q : ℚ) :
    |q - (roundHalfEven q : ℚ)| < 1 / 2 ∨
      (|q - (roundHalfEven q : ℚ)| = 1 / 2 ∧ roundHalfEven q % 2 = 0) := by
  have h1 := Int.floor_le q
  have h2 := Int.lt_floor_add_one q
  unfold roundHalfEven
  split_ifs with a b c
  · left
    rw [abs_lt]
    constructor <;> linarith
  · left
    push_cast
    rw [abs_lt]
    constructor <;> linarith
  · right
    refine ⟨?_, c⟩
    have : q - (⌊q⌋ : ℚ) = 1 / 2 := le_antisymm (not_lt.mp b) (not_lt.mp a)
    rw [this]
    norm_num
  · right
    constructor
    · have : q - (⌊q⌋ : ℚ) = 1 / 2 := le_antisymm (not_lt.mp b) (not_lt.mp a)
      push_cast
      rw [show q - ((⌊q⌋ : ℚ) + 1) = (q - (⌊q⌋ : ℚ)) - 1 by ring, this]
      norm_num
    · omega

/-- The nearest integer is the only integer that is less than one half away, or exactly one
half away and even. -/
theorem roundHalfEven_unique (q : ℚ) (n : ℤ)
    (h : |q - (n : ℚ)| < 1 / 2 ∨ (|q - (n : ℚ)| = 1 / 2 ∧ n % 2 = 0)) :
    roundHalfEven q = n := by
  have hs := roundHalfEven_spec q
  have htri : |(roundHalfEven q : ℚ) - (n : ℚ)| ≤ |q - (roundHalfEven q : ℚ)| + |q - (n : ℚ)| := by
    have : (roundHalfEven q : ℚ) - (n : ℚ) = (q - (n : ℚ)) - (q - (roundHalfEven q : ℚ)) := by
      ring
    rw [this]
    have := abs_sub (q - (n : ℚ)) (q - (roundHalfEven q : ℚ))
    linarith
  have hle : |roundHalfEven q - n| ≤ 1 := by
    have h1 : |q - (roundHalfEven q : ℚ)| ≤ 1 / 2 := by
      rcases hs with hs | hs
      · exact hs.le
      · exact hs.1.le
    have h2 : |q - (n : ℚ)| ≤ 1 / 2 := by
      rcases h with h | h
      · exact h.le
      · exact h.1.le
    have : ((|roundHalfEven q - n| : ℤ) : ℚ) ≤ ((1 : ℤ) : ℚ) := by
      push_cast
      linarith
    exact_mod_cast this
  by_cases hstrict : |roundHalfEven q - n| < 1
  · rw [abs_lt] at hstrict
    omega
  · have heq : |roundHalfEven q - n| = 1 := le_antisymm hle (not_lt.mp hstrict)
    have hq1 : ((|roundHalfEven q - n| : ℤ) : ℚ) = 1 := by exact_mod_cast heq
    push_cast at hq1
    rcases hs with hs | hs
    · exfalso
      rcases h with h | h
      · linarith
      · linarith [h.1]
    · rcases h with h | h
      · exfalso
        linarith [hs.1]
      · rw [abs_le] at hle
        omega

/-- Rounding to the nearest integer commutes with negation. -/
theorem roundHalfEven_neg (q : ℚ) : roundHalfEven (-q) = -roundHalfEven q := by
  apply roundHalfEven_unique
  have e : |-q - ((-roundHalfEven q : ℤ) : ℚ)| = |q - (roundHalfEven q : ℚ)| := by
    push_cast
    rw [show -q - -(roundHalfEven q : ℚ) = -(q - (roundHalfEven q : ℚ)) by ring, abs_neg]
  rw [e]
  rcases roundHalfEven_spec q with h | h
  · exact Or.inl h
  · exact Or.inr ⟨h.1, by omega⟩

/-- The unit in the last place does not depend on the sign. -/
theorem ulpExponent_neg (x : ℚ) : ulpExponent (-x) = ulpExponent x := by
  unfold ulpExponent
  rw [abs_neg]

/-- The rounding commutes with negation. -/
theorem round64_neg (x : ℚ) : round64 (-x) = -round64 x := by
  unfold round64
  rw [ulpExponent_neg, neg_div, roundHalfEven_neg]
  push_cast
  ring

/-- The rounding is monotone on positive values. -/
theorem round64_mono_pos {x y : ℚ} (hx : 0 < x) (hxy : x ≤ y) : round64 x ≤ round64 y := by
  have hy : 0 < y := lt_of_lt_of_le hx hxy
  have h2 : (2 : ℚ) ≠ 0 := by norm_num
  have hlog : Int.log 2 |x| ≤ Int.log 2 |y| := by
    apply Int.log_mono_right (abs_pos.mpr hx.ne')
    rw [abs_of_pos hx, abs_of_pos hy]
    exact hxy
  have hexp : ulpExponent x ≤ ulpExponent y := by
    unfold ulpExponent
    exact max_le_max (by omega) (le_refl _)
  rcases lt_or_eq_of_le hexp with hlt | heq
  · have hey : ulpExponent y = Int.log 2 |y| - 52 := by
      have h1074 : -1074 ≤ ulpExponent x := le_max_right _ _
      unfold ulpExponent at hlt h1074 ⊢
      rcases max_cases (Int.log 2 |y| - 52) (-1074) with h | h
      · exact h.1
      · omega
    have hylow : (2 : ℚ) ^ (52 : ℕ) * 2 ^ ulpExponent y ≤ round64 y := by
      unfold round64
      have hp : (0 : ℚ) < 2 ^ ulpExponent y := zpow_pos (by norm_num) _
      apply mul_le_mul_of_nonneg_right _ hp.le
      have hq : ((2 : ℚ) ^ (52 : ℕ)) ≤ y / 2 ^ ulpExponent y := by
        rw [le_div_iff₀ hp, ← zpow_natCast, ← zpow_add₀ h2, hey]
        have := (log_bounds hy.ne').1
        rw [abs_of_pos hy] at this ⊢
        have e : ((52 : ℕ) : ℤ) + (Int.log 2 y - 52) = Int.log 2 y := by push_cast; ring
        rw [e]
        exact this
      have := roundHalfEven_mono hq
      rw [show ((2 : ℚ) ^ (52 : ℕ)) = (((2 : ℤ) ^ (52 : ℕ) : ℤ) : ℚ) by norm_num,
        roundHalfEven_intCast] at this
      have : (((2 : ℤ) ^ (52 : ℕ) : ℤ) : ℚ) ≤ (roundHalfEven (y / 2 ^ ulpExponent y) : ℚ) := by
        exact_mod_cast this
      simpa using this
    have hxup : round64 x ≤ (2 : ℚ) ^ (53 : ℕ) * 2 ^ ulpExponent x := by
      unfold round64
      have hp : (0 : ℚ) < 2 ^ ulpExponent x := zpow_pos (by norm_num) _
      apply mul_le_mul_of_nonneg_right _ hp.le
      exact (abs_le.mp (round64_abs_le x)).2
    have hmid : (2 : ℚ) ^ (53 : ℕ) * 2 ^ ulpExponent x ≤ 2 ^ (52 : ℕ) * 2 ^ ulpExponent y := by
      rw [← zpow_natCast, ← zpow_natCast, ← zpow_add₀ h2, ← zpow_add₀ h2]
      apply zpow_le_zpow_right₀ (by norm_num)
      push_cast
      omega
    linarith
  · unfold round64
    rw [← heq]
    have hp : (0 : ℚ) < 2 ^ ulpExponent x := zpow_pos (by norm_num) _
    apply mul_le_mul_of_nonneg_right _ hp.le
    have := roundHalfEven_mono (div_le_div_of_nonneg_right hxy hp.le)
    exact_mod_cast this

/-- The rounding is monotone. -/
theorem round64_mono {x y : ℚ} (hxy : x ≤ y) : round64 x ≤ round64 y := by
  by_cases hx : 0 < x
  · exact round64_mono_pos hx hxy
  · have hx' : x ≤ 0 := not_lt.mp hx
    by_cases hy : 0 ≤ y
    · exact le_trans (round64_nonpos hx') (round64_nonneg hy)
    · have hy' : y < 0 := not_le.mp hy
      have := round64_mono_pos (neg_pos.mpr hy') (neg_le_neg hxy)
      rw [round64_neg, round64_neg] at this
      linarith

/-- The rounding error is at most half a unit in the last place. -/
theorem round64_error (x : ℚ) : |round64 x - x| ≤ 2 ^ ulpExponent x / 2 := by
  have hp : (0 : ℚ) < 2 ^ ulpExponent x := zpow_pos (by norm_num) _
  obtain ⟨h1, h2⟩ := roundHalfEven_bounds (x / 2 ^ ulpExponent x)
  have e : round64 x - x =
      ((roundHalfEven (x / 2 ^ ulpExponent x) : ℚ) - x / 2 ^ ulpExponent x) * 2 ^ ulpExponent x := by
    unfold round64
    field_simp
  rw [e, abs_mul, abs_of_pos hp]
  have : |(roundHalfEven (x / 2 ^ ulpExponent x) : ℚ) - x / 2 ^ ulpExponent x| ≤ 1 / 2 := by
    rw [abs_le]
    constructor <;> linarith
  calc _ ≤ 1 / 2 * 2 ^ ulpExponent x := mul_le_mul_of_nonneg_right this hp.le
    _ = 2 ^ ulpExponent x / 2 := by ring

/-- Evaluation of `round64` from the binade of `x` when the scaled value is a tie and `m`
is its even neighbour. -/
theorem round64_eq_tie (x : ℚ) (k m : ℤ) (h1 : (2 : ℚ) ^ k ≤ |x|)
    (h2 : |x| < (2 : ℚ) ^ (k + 1))
    (hm : |x / 2 ^ (max (k - 52) (-1074)) - (m : ℚ)| = 1 / 2) (he : m % 2 = 0) :
    round64 x = (m : ℚ) * 2 ^ (max (k - 52) (-1074)) := by
  unfold round64
  rw [ulpExponent_eq x k h1 h2, roundHalfEven_unique _ m (Or.inr ⟨hm, he⟩)]

/-- An integer below `2^53` in absolute value is a binary64 value. -/
theorem isBinary64_intCast (z : ℤ) (h : |z| < 2 ^ (53 : ℕ)) : isBinary64 (z : ℚ) := by
  constructor
  · have := round64_of_repr z 0 h (by norm_num)
    simpa using this
  · have : ((|z| : ℤ) : ℚ) < (((2 : ℤ) ^ (53 : ℕ) : ℤ) : ℚ) := by exact_mod_cast h
    push_cast at this
    exact lt_of_lt_of_le this (by norm_num)

/-- A natural number below `2^53` is a binary64 value. -/
theorem isBinary64_natCast (n : ℕ) (h : n < 2 ^ 53) : isBinary64 (n : ℚ) := by
  have := isBinary64_intCast (n : ℤ) (by rw [abs_of_nonneg (by positivity)]; exact_mod_cast h)
  simpa using this

/-- A rounded value inside the range is a binary64 value. -/
theorem isBinary64_round64 (x : ℚ) (h : |round64 x| < 2 ^ 1024) : isBinary64 (round64 x) :=
  ⟨round64_round64 x, h⟩

/-- An operation whose exact result is a binary64 value returns that value. -/
theorem Double.ofRat_of_isBinary64 {x : ℚ} (h : isBinary64 x) : Double.ofRat x = Double.fin x := by
  unfold Double.ofRat
  rw [h.1, if_neg (not_le.mpr h.2)]

/-- An operation whose exact result rounds to `r` inside the range returns `r`. -/
theorem Double.ofRat_eq {x r : ℚ} (h : round64 x = r) (hr : |r| < 2 ^ 1024) :
    Double.ofRat x = Double.fin r := by
  unfold Double.ofRat
  rw [h, if_neg (not_le.mpr hr)]

/-- The result of a rounded operation is a `double`. -/
theorem Double.isValue_ofRat (x : ℚ) : (Double.ofRat x).isValue := by
  unfold Double.ofRat
  split_ifs with h
  · unfold Double.infOfSign
    split_ifs <;> trivial
  · exact isBinary64_round64 x (not_le.mp h)

/-- The result of a rounded operation is a `double`. -/
theorem Double.isValue_rounded (d : Double) : (Double.rounded d).isValue := by
  cases d with
  | fin q => exact Double.isValue_ofRat q
  | posInf => trivial
  | negInf => trivial
  | nan => trivial

/-- Rounding is monotone, overflow included. -/
theorem Double.ofRat_mono {x y : ℚ} (h : x ≤ y) :
    Double.le (Double.ofRat x) (Double.ofRat y) = true := by
  have hr := round64_mono h
  unfold Double.ofRat
  by_cases hx : (2 : ℚ) ^ 1024 ≤ |round64 x|
  · rw [if_pos hx]
    by_cases hx0 : x < 0
    · by_cases hy : (2 : ℚ) ^ 1024 ≤ |round64 y|
      · by_cases hy0 : y < 0 <;> simp [hx0, hy, hy0, Double.infOfSign, Double.le]
      · simp [hx0, hy, Double.infOfSign, Double.le]
    · have hx0' : 0 ≤ x := not_lt.mp hx0
      have hrx : 0 ≤ round64 x := round64_nonneg hx0'
      rw [abs_of_nonneg hrx] at hx
      have hy0 : ¬ y < 0 := not_lt.mpr (le_trans hx0' h)
      have hy : (2 : ℚ) ^ 1024 ≤ |round64 y| := by
        rw [abs_of_nonneg (le_trans hrx hr)]
        exact le_trans hx hr
      simp [hx0, hy, hy0, Double.infOfSign, Double.le]
  · rw [if_neg hx]
    by_cases hy : (2 : ℚ) ^ 1024 ≤ |round64 y|
    · rw [if_pos hy]
      by_cases hy0 : y < 0
      · exfalso
        have hry : round64 y ≤ 0 := round64_nonpos hy0.le
        rw [abs_of_nonpos hry] at hy
        apply hx
        rw [abs_of_nonpos (le_trans hr hry)]
        linarith
      · simp [hy0, Double.infOfSign, Double.le]
    · rw [if_neg hy]
      simp [Double.le, hr]

/-- A value between two finite values is finite and lies in the closed interval they span. -/
theorem Double.between_fin (a v : ℚ) (x : Double)
    (h : Double.between (Double.fin a) x (Double.fin v)) :
    ∃ r : ℚ, x = Double.fin r ∧ min a v ≤ r ∧ r ≤ max a v := by
  cases x with
  | fin r =>
    refine ⟨r, rfl, ?_⟩
    simp only [Double.between, Double.le, decide_eq_true_eq] at h
    rcases h with ⟨h1, h2⟩ | ⟨h1, h2⟩
    · exact ⟨le_trans (min_le_left _ _) h1, le_trans h2 (le_max_right _ _)⟩
    · exact ⟨le_trans (min_le_right _ _) h1, le_trans h2 (le_max_left _ _)⟩
  | posInf => simp [Double.between, Double.le] at h
  | negInf => simp [Double.between, Double.le] at h
  | nan => simp [Double.between, Double.le] at h

/-- A value `m * 2^k` with `|m| < 2^53` and `k ≥ -1074` inside the range is a binary64
value. -/
theorem isBinary64_of_repr (m k : ℤ) (hm : |m| < 2 ^ (53 : ℕ)) (hk : -1074 ≤ k)
    (hr : |(m : ℚ) * 2 ^ k| < 2 ^ 1024) : isBinary64 ((m : ℚ) * 2 ^ k) :=
  ⟨round64_of_repr m k hm hk, hr⟩

/-- Subtraction of two finite values in binary64 arithmetic. -/
theorem Double.sub64_fin (v a : ℚ) :
    Double.sub64 (Double.fin v) (Double.fin a) = Double.ofRat (v - a) := by
  simp only [Double.sub64, Double.sub, Double.neg, Double.add, Double.rounded, sub_eq_add_neg]

/-! ## The claims -/

/-- The `size_t` difference of a smaller and a larger value wraps around. -/
theorem subSizeT_of_lt (c p : Nat) (hcp : c < p) (hp : p < 2 ^ 64) :
    subSizeT c p = c + 2 ^ 64 - p := by
  unfold subSizeT
  norm_num at hp ⊢
  omega

/-- C4 (as amended).  Missing frame size and frame rate are replaced by zero: for every
collector state, whatever its `Width`, `Height` and `FramePerSecond`, delivering a video
outbound stream record in which `frame_width`, `frame_height` and `frames_per_second` are
undefined leaves `Width = 0`, `Height = 0` and `FramePerSecond = 0`. -/
theorem C4_missing_fields_become_zero (self : FRTCStatsCollector) (T : Int)
    (pre post : List RTCStats) (Stats : RTCStats) (hv : isVideoOutbound Stats)
    (hpre : ∀ x ∈ pre, ¬ isVideoOutbound x) (hpost : ∀ x ∈ post, ¬ isVideoOutbound x)
    (hw : Stats.frame_width = none) (hh : Stats.frame_height = none)
    (hf : Stats.frames_per_second = none) :
    (self.OnStatsDelivered { timestamp_us := T, stats := pre ++ Stats :: post }).Width = 0 ∧
    (self.OnStatsDelivered { timestamp_us := T, stats := pre ++ Stats :: post }).Height = 0 ∧
    (self.OnStatsDelivered { timestamp_us := T, stats := pre ++ Stats :: post }).FramePerSecond
      = 0 := by
  obtain ⟨-, -, -, e4, e5, e6⟩ := OnStatsDelivered_video self T pre post Stats hv hpre hpost
  rw [e4, e5, e6, hw, hh, hf]
  simp [ValueOrDefault, Double.toSizeT]

/-- C4, an instance: a collector that holds 1920 x 1080 at 30 frames per second receives a
video record without these members. -/
theorem C4_missing_fields_become_zero_witness :
    (((FRTCStatsCollector.construct 0).OnStatsDelivered
        (singleReport (videoFrameRecord 1000000 1920 1080 (Double.fin 30) 1000))).OnStatsDelivered
        { timestamp_us := 2000000, stats := [] ++ videoBytesRecord 2000000 2000 :: [] }).Width = 0 ∧
    (((FRTCStatsCollector.construct 0).OnStatsDelivered
        (singleReport (videoFrameRecord 1000000 1920 1080 (Double.fin 30) 1000))).OnStatsDelivered
        { timestamp_us := 2000000, stats := [] ++ videoBytesRecord 2000000 2000 :: [] }).Height = 0 ∧
    (((FRTCStatsCollector.construct 0).OnStatsDelivered
        (singleReport (videoFrameRecord 1000000 1920 1080 (Double.fin 30) 1000))).OnStatsDelivered
        { timestamp_us := 2000000, stats := [] ++ videoBytesRecord 2000000 2000 :: [] }).FramePerSecond
      = 0 :=
  C4_missing_fields_become_zero _ 2000000 [] [] (videoBytesRecord 2000000 2000)
    (isVideoOutbound_videoBytesRecord _ _) (by simp) (by simp) rfl rfl rfl

/-- C4, the claim fails: a collector with `Width = 1920`, `Height = 1080` and
`FramePerSecond = 30` that receives a video record without these members does not keep
them. -/
theorem C4_counterexample :
    ((FRTCStatsCollector.construct 0).OnStatsDelivered
        (singleReport (videoFrameRecord 1000000 1920 1080 (Double.fin 30) 1000))).Width = 1920 ∧
    ((FRTCStatsCollector.construct 0).OnStatsDelivered
        (singleReport (videoFrameRecord 1000000 1920 1080 (Double.fin 30) 1000))).Height = 1080 ∧
    ((FRTCStatsCollector.construct 0).OnStatsDelivered
        (singleReport (videoFrameRecord 1000000 1920 1080 (Double.fin 30) 1000))).FramePerSecond
      = 30 ∧
    (videoBytesRecord 2000000 2000).frame_width = none ∧
    (videoBytesRecord 2000000 2000).frame_height = none ∧
    (videoBytesRecord 2000000 2000).frames_per_second = none ∧
    (((FRTCStatsCollector.construct 0).OnStatsDelivered
        (singleReport (videoFrameRecord 1000000 1920 1080 (Double.fin 30) 1000))).OnStatsDelivered
        (singleReport (videoBytesRecord 2000000 2000))).Width ≠ 1920 ∧
    (((FRTCStatsCollector.construct 0).OnStatsDelivered
        (singleReport (videoFrameRecord 1000000 1920 1080 (Double.fin 30) 1000))).OnStatsDelivered
        (singleReport (videoBytesRecord 2000000 2000))).Height ≠ 1080 ∧
    (((FRTCStatsCollector.construct 0).OnStatsDelivered
        (singleReport (videoFrameRecord 1000000 1920 1080 (Double.fin 30) 1000))).OnStatsDelivered
        (singleReport (videoBytesRecord 2000000 2000))).FramePerSecond ≠ 30 := by
  simp [FRTCStatsCollector.OnStatsDelivered, scanReport, singleReport, videoBytesRecord,
    videoFrameRecord, scanStep, onVideoOutbound, FRTCStatsCollector.construct,
    RTCStats.blank, videoBitrateUpdate, avgEncodeTimeUpdate, ValueOrDefault, derefString,
    Double.isNonzero, Double.ofInt, Double.ofNat, Double.sub, Double.add, Double.neg,
    Double.mul, Double.div, Double.toSizeT, subSizeT, mulSizeT, NUM_US,
    RTCOutboundRTPStreamStats_kType, RTCMediaStreamTrackKind_kVideo]
  norm_num


/-- A record whose type tag does not compare equal to `RTCIceCandidateStats::kType` leaves
`Rtt` as it is. -/
theorem Rtt_scanStep_of_not (Report : RTCStatsReport) (st : ScanState) (Stats : RTCStats)
    (h : ¬ FStringEq Stats.type RTCIceCandidateStats_kType) :
    (scanStep Report st Stats).self.Rtt = st.self.Rtt := by
  unfold scanStep
  split_ifs with h1 h2 h3 h4
  · simp only [onVideoOutbound]
  · simp only [onAudioOutbound]
  · rfl
  · rfl
  · rfl

theorem Rtt_foldl_of_not (Report : RTCStatsReport) (l : List RTCStats)
    (h : ∀ x ∈ l, ¬ FStringEq x.type RTCIceCandidateStats_kType) (st : ScanState) :
    (l.foldl (scanStep Report) st).self.Rtt = st.self.Rtt := by
  induction l generalizing st with
  | nil => rfl
  | cons x xs ih =>
    rw [List.foldl_cons, ih (fun y hy => h y (List.mem_cons_of_mem x hy)),
      Rtt_scanStep_of_not Report st x (h x (List.mem_cons_self x xs))]

/-- C5 (what the code does).  The round trip time branch of `OnStatsDelivered` is selected by
the type tag `RTCIceCandidateStats::kType`, not by the tag of the candidate pair records.
For every collector state and every report that holds a candidate pair record (type tag
`RTCIceCandidatePairStats::kType`), whatever its `current_round_trip_time`, next to records
whose tag does not compare equal to `RTCIceCandidateStats::kType`, `Rtt` after
`OnStatsDelivered` is the previous `Rtt`. -/
theorem C5_candidate_pair_record_leaves_Rtt (self : FRTCStatsCollector) (T : Int)
    (pre post : List RTCStats) (Stats : RTCStats)
    (hs : Stats.type = RTCIceCandidatePairStats_kType)
    (hpre : ∀ x ∈ pre, ¬ FStringEq x.type RTCIceCandidateStats_kType)
    (hpost : ∀ x ∈ post, ¬ FStringEq x.type RTCIceCandidateStats_kType) :
    (self.OnStatsDelivered { timestamp_us := T, stats := pre ++ Stats :: post }).Rtt =
      self.Rtt := by
  have hf := (OnStatsDelivered_scan_fields self
    { timestamp_us := T, stats := pre ++ Stats :: post }).2.2.2.2.2.2.2.2.2
  rw [hf]
  unfold scanReport
  apply Rtt_foldl_of_not
  intro x hx
  rcases List.mem_append.mp hx with hx | hx
  · exact hpre x hx
  · rcases List.mem_cons.mp hx with hx | hx
    · rw [hx, hs]
      decide
    · exact hpost x hx

/-- C5, the failing input: a fresh collector receives a report with one candidate pair
record whose `current_round_trip_time` is 0.05 s; `Rtt` stays `0`, while
`0.05 * 1000 = 50`. -/
theorem C5_candidate_pair_record_leaves_Rtt_witness :
    ((FRTCStatsCollector.construct 0).OnStatsDelivered
        { timestamp_us := 1000000,
          stats := [] ++ candidatePairRecord 1000000 (Double.fin (1 / 20)) :: [] }).Rtt =
      Double.fin 0 ∧
    Double.mul (Double.fin (1 / 20)) (Double.fin 1000) = Double.fin 50 ∧
    Double.fin 0 ≠ Double.fin 50 :=
  ⟨C5_candidate_pair_record_leaves_Rtt (FRTCStatsCollector.construct 0) 1000000 [] []
      (candidatePairRecord 1000000 (Double.fin (1 / 20))) rfl (by simp) (by simp),
    by simp only [Double.mul]; norm_num,
    by simp⟩

/-- The value of the guarded audio bitrate computation when the guard holds and nothing
wraps around. -/
theorem audioBitrateUpdate_of_gt (tp : ℚ) (p b : Nat) (t : Int) (htp : tp ≠ 0) (hpb : p < b)
    (hb : b < 2 ^ 64) (hno : (b - p) * 8000000 < 2 ^ 64) (ht : tp < (t : ℚ)) :
    audioBitrateUpdate (Double.fin tp) p b t =
      some (Double.fin (((b : ℚ) - (p : ℚ)) * 8 * 1000000 / ((t : ℚ) - tp))) := by
  have hg : (Double.fin tp).isNonzero = true ∧ b ≠ p := by
    refine ⟨?_, Nat.ne_of_gt hpb⟩
    simp [Double.isNonzero, htp]
  have hm : mulSizeT (mulSizeT (subSizeT b p) NUM_US) 8 = (b - p) * 8000000 := by
    unfold mulSizeT subSizeT NUM_US
    norm_num at hb hno ⊢
    omega
  unfold audioBitrateUpdate
  rw [if_pos hg, hm]
  simp only [Double.ofNat, Double.ofInt, Double.sub, Double.neg, Double.add, Double.div]
  have hne2 : (t : ℚ) + -tp ≠ 0 := by
    rw [← sub_eq_add_neg]
    exact sub_ne_zero.mpr (ne_of_gt ht)
  rw [if_neg hne2]
  congr 2
  push_cast [Nat.cast_sub (le_of_lt hpb)]
  ring

/-- The encode time average after a delivery, in terms of the scan. -/
theorem OnStatsDelivered_AvgEncodeTime (self : FRTCStatsCollector) (Report : RTCStatsReport) :
    (self.OnStatsDelivered Report).AvgEncodeTime =
      (match avgEncodeTimeUpdate (scanReport self Report).self.TotalEncodedFrames
          (scanReport self Report).self.TotalEncodeTime
          (scanReport self Report).NewTotalEncodedFrames
          (scanReport self Report).NewTotalEncodeTime with
        | some avg => avg
        | none => (scanReport self Report).self.AvgEncodeTime) := by
  unfold FRTCStatsCollector.OnStatsDelivered
  simp only
  split <;> rfl

/-- The encode totals seen after the scan of a report whose only video outbound stream
record is `Stats`. -/
theorem scanReport_encode (self : FRTCStatsCollector) (T : Int) (pre post : List RTCStats)
    (Stats : RTCStats) (hv : isVideoOutbound Stats)
    (hpre : ∀ x ∈ pre, ¬ isVideoOutbound x) (hpost : ∀ x ∈ post, ¬ isVideoOutbound x) :
    (scanReport self { timestamp_us := T, stats := pre ++ Stats :: post }).NewTotalEncodedFrames =
      Double.ofNat (ValueOrDefault Stats.frames_encoded 0) ∧
    (scanReport self { timestamp_us := T, stats := pre ++ Stats :: post }).NewTotalEncodeTime =
      ValueOrDefault Stats.total_encode_time (Double.fin 0) ∧
    (scanReport self { timestamp_us := T, stats := pre ++ Stats :: post }).self.TotalEncodedFrames =
      self.TotalEncodedFrames ∧
    (scanReport self { timestamp_us := T, stats := pre ++ Stats :: post }).self.TotalEncodeTime =
      self.TotalEncodeTime ∧
    (scanReport self { timestamp_us := T, stats := pre ++ Stats :: post }).self.AvgEncodeTime =
      self.AvgEncodeTime := by
  have hview := videoView_scanReport self T pre post Stats hv hpre hpost
  have h1 := congrArg VideoView.NewTotalEncodedFrames hview
  have h2 := congrArg VideoView.NewTotalEncodeTime hview
  have h3 := congrArg VideoView.TotalEncodedFrames hview
  have h4 := congrArg VideoView.TotalEncodeTime hview
  have h5 := congrArg VideoView.AvgEncodeTime hview
  simp only [videoView, onVideoOutbound, scanStart] at h1 h2 h3 h4 h5
  exact ⟨h1, h2, h3, h4, h5⟩

/-- The encode time average in binary64 arithmetic is the exact quotient when the two
differences, the product and the quotient are binary64 values. -/
theorem avgEncodeTimeUpdate64_exact (F T0 T' : ℚ) (F' : Nat) (hne : (F' : ℚ) ≠ F)
    (h1 : isBinary64 (T' - T0)) (h2 : isBinary64 ((T' - T0) * 1000))
    (h3 : isBinary64 ((F' : ℚ) - F)) (h4 : isBinary64 ((T' - T0) * 1000 / ((F' : ℚ) - F))) :
    avgEncodeTimeUpdate64 (Double.fin F) (Double.fin T0) (Double.ofNat F') (Double.fin T') =
      some (Double.fin ((T' - T0) * 1000 / ((F' : ℚ) - F))) := by
  have hd : (F' : ℚ) - F ≠ 0 := sub_ne_zero.mpr hne
  simp only [avgEncodeTimeUpdate64, Double.ofNat, Double.sub64_fin,
    Double.ofRat_of_isBinary64 h3, Double.ofRat_of_isBinary64 h1, Double.isNonzero]
  rw [if_pos (by simpa using hd)]
  simp only [Double.mul64, Double.mul, Double.rounded, Double.ofRat_of_isBinary64 h2,
    Double.div64, Double.div, if_neg hd, Double.ofRat_of_isBinary64 h4]

/-- C9.  Encode time average with zero frame delta: for every collector state and every
report whose video outbound stream record reports `frames_encoded` equal to the stored
`TotalEncodedFrames`, the guarded computation evaluates no division and `AvgEncodeTime`
keeps its previous value, whatever `total_encode_time` the record reports. -/
theorem C9_zero_frame_delta_keeps_average (self : FRTCStatsCollector) (T : Int)
    (pre post : List RTCStats) (Stats : RTCStats) (n : Nat)
    (hv : isVideoOutbound Stats)
    (hpre : ∀ x ∈ pre, ¬ isVideoOutbound x) (hpost : ∀ x ∈ post, ¬ isVideoOutbound x)
    (hn : Stats.frames_encoded = some n) (hF : self.TotalEncodedFrames = Double.ofNat n) :
    avgEncodeTimeUpdate self.TotalEncodedFrames self.TotalEncodeTime
        (scanReport self { timestamp_us := T, stats := pre ++ Stats :: post }).NewTotalEncodedFrames
        (scanReport self { timestamp_us := T, stats := pre ++ Stats :: post }).NewTotalEncodeTime
      = none ∧
    (self.OnStatsDelivered { timestamp_us := T, stats := pre ++ Stats :: post }).AvgEncodeTime =
      self.AvgEncodeTime := by
  obtain ⟨h1, h2, h3, h4, h5⟩ := scanReport_encode self T pre post Stats hv hpre hpost
  have hnone : ∀ t t' : Double,
      avgEncodeTimeUpdate (Double.ofNat n) t (Double.ofNat n) t' = none := by
    intro t t'
    simp [avgEncodeTimeUpdate, Double.ofNat, Double.sub, Double.neg, Double.add,
      Double.isNonzero]
  constructor
  · rw [h1, hF, hn]
    exact hnone _ _
  · rw [OnStatsDelivered_AvgEncodeTime, h1, h3, h4, h5, hF, hn]
    simp only [ValueOrDefault]
    rw [hnone]

/-- C9, an instance: stored total 10 frames, a record that reports 10 frames and a
different encode time. -/
theorem C9_zero_frame_delta_keeps_average_witness :
    (((FRTCStatsCollector.construct 0).OnStatsDelivered
        (singleReport (videoEncodeRecord 1000000 10 (Double.fin (1 / 10))))).OnStatsDelivered
        { timestamp_us := 2000000,
          stats := [] ++ videoEncodeRecord 2000000 10 (Double.fin (3 / 20)) :: [] }).AvgEncodeTime =
      ((FRTCStatsCollector.construct 0).OnStatsDelivered
        (singleReport (videoEncodeRecord 1000000 10 (Double.fin (1 / 10))))).AvgEncodeTime := by
  have hs : ((FRTCStatsCollector.construct 0).OnStatsDelivered
        (singleReport (videoEncodeRecord 1000000 10 (Double.fin (1 / 10))))).TotalEncodedFrames =
        Double.ofNat 10 := by
    simp [FRTCStatsCollector.OnStatsDelivered, scanReport, singleReport, videoEncodeRecord,
      scanStep, onVideoOutbound, FRTCStatsCollector.construct, RTCStats.blank,
      videoBitrateUpdate, avgEncodeTimeUpdate, ValueOrDefault, derefString, Double.isNonzero,
      Double.ofInt, Double.ofNat, Double.sub, Double.add, Double.neg, Double.mul, Double.div,
      RTCOutboundRTPStreamStats_kType, RTCMediaStreamTrackKind_kVideo]
  exact (C9_zero_frame_delta_keeps_average _ 2000000 [] []
    (videoEncodeRecord 2000000 10 (Double.fin (3 / 20))) 10
    (by simp [isVideoOutbound, videoEncodeRecord, RTCStats.blank, derefString,
      RTCMediaStreamTrackKind_kVideo])
    (by simp) (by simp) rfl hs).2


/-- The multiplier of `CalcEMA` for a sample count between 1 and 60 is a finite value in
`(0, 1]`, the rounding of `2 / (n + 1)`; it is 1 for the sample count 1. -/
theorem ema_mult (n : ℤ) (h1 : 1 ≤ n) (h2 : n ≤ 60) :
    Double.div64 (Double.fin 2) (Double.add64 (Double.ofInt n) (Double.fin 1)) =
        Double.fin (round64 (2 / ((n : ℚ) + 1))) ∧
      0 < round64 (2 / ((n : ℚ) + 1)) ∧ round64 (2 / ((n : ℚ) + 1)) ≤ 1 ∧
      (n = 1 → round64 (2 / ((n : ℚ) + 1)) = 1) := by
  have hn1 : (1 : ℚ) ≤ (n : ℚ) := by exact_mod_cast h1
  have hn2 : (n : ℚ) ≤ 60 := by exact_mod_cast h2
  have hne : (n : ℚ) + 1 ≠ 0 := by linarith
  have hb : isBinary64 ((n : ℚ) + 1) := by
    have := isBinary64_intCast (n + 1) (by rw [abs_lt]; constructor <;> norm_num <;> omega)
    simpa using this
  have r1 : round64 1 = 1 := (isBinary64_intCast 1 (by norm_num)).1
  have r32 : round64 (1 / 32) = 1 / 32 := by
    have := round64_of_repr 1 (-5) (by norm_num) (by norm_num)
    norm_num at this
    exact this
  have hlo : (1 : ℚ) / 32 ≤ 2 / ((n : ℚ) + 1) := by
    rw [div_le_div_iff₀ (by norm_num) (by linarith)]
    linarith
  have hhi : 2 / ((n : ℚ) + 1) ≤ 1 := by
    rw [div_le_one (by linarith)]
    linarith
  have m0 : 0 < round64 (2 / ((n : ℚ) + 1)) := by
    have := round64_mono hlo
    rw [r32] at this
    linarith
  have m1 : round64 (2 / ((n : ℚ) + 1)) ≤ 1 := by
    have := round64_mono hhi
    rwa [r1] at this
  refine ⟨?_, m0, m1, ?_⟩
  · have e1 : Double.add64 (Double.ofInt n) (Double.fin 1) = Double.fin ((n : ℚ) + 1) := by
      simp only [Double.add64, Double.ofInt, Double.add, Double.rounded]
      exact Double.ofRat_of_isBinary64 hb
    rw [e1]
    simp only [Double.div64, Double.div, if_neg hne, Double.rounded]
    apply Double.ofRat_eq rfl
    rw [abs_of_pos m0]
    exact lt_of_le_of_lt m1 (by norm_num)
  · intro h
    rw [h]
    norm_num
    exact r1

/-- One step of the average with a multiplier in `(0, 1]` toward a value that is not
below the previous average. -/
theorem ema_step_up (a v m : ℚ) (ha : isBinary64 a) (hav : a ≤ v) (hm0 : 0 < m) (hm1 : m ≤ 1) :
    Double.le (Double.fin a)
        (Double.add64 (Double.mul64 (Double.sub64 (Double.fin v) (Double.fin a)) (Double.fin m))
          (Double.fin a)) = true ∧
      Double.le
        (Double.add64 (Double.mul64 (Double.sub64 (Double.fin v) (Double.fin a)) (Double.fin m))
          (Double.fin a))
        (Double.add64 (Double.sub64 (Double.fin v) (Double.fin a)) (Double.fin a)) = true := by
  rw [Double.sub64_fin]
  have hd0 : 0 ≤ v - a := sub_nonneg.mpr hav
  have hD0 : 0 ≤ round64 (v - a) := round64_nonneg hd0
  unfold Double.ofRat
  by_cases hD : (2 : ℚ) ^ 1024 ≤ |round64 (v - a)|
  · rw [if_pos hD]
    simp [not_lt.mpr hd0, Double.infOfSign, Double.mul64, Double.mul, hm0.ne',
      not_lt.mpr hm0.le, Double.add64, Double.add, Double.rounded, Double.le]
  · rw [if_neg hD]
    rw [abs_of_nonneg hD0] at hD
    have hP0 : 0 ≤ round64 (round64 (v - a) * m) := round64_nonneg (mul_nonneg hD0 hm0.le)
    have hPD : round64 (round64 (v - a) * m) ≤ round64 (v - a) := by
      have := round64_mono (mul_le_of_le_one_right hD0 hm1)
      rwa [round64_round64] at this
    have hP : Double.ofRat (round64 (v - a) * m) =
        Double.fin (round64 (round64 (v - a) * m)) := by
      apply Double.ofRat_eq rfl
      rw [abs_of_nonneg hP0]
      linarith [not_le.mp hD]
    simp only [Double.mul64, Double.mul, Double.rounded, hP, Double.add64, Double.add]
    constructor
    · have := Double.ofRat_mono
        (show a ≤ round64 (round64 (v - a) * m) + a by linarith)
      rwa [Double.ofRat_of_isBinary64 ha] at this
    · exact Double.ofRat_mono (by linarith)

/-- One step of the average with a multiplier in `(0, 1]` toward a value that is not
above the previous average. -/
theorem ema_step_down (a v m : ℚ) (ha : isBinary64 a) (hav : v ≤ a) (hm0 : 0 < m)
    (hm1 : m ≤ 1) :
    Double.le (Double.add64 (Double.sub64 (Double.fin v) (Double.fin a)) (Double.fin a))
        (Double.add64 (Double.mul64 (Double.sub64 (Double.fin v) (Double.fin a)) (Double.fin m))
          (Double.fin a)) = true ∧
      Double.le
        (Double.add64 (Double.mul64 (Double.sub64 (Double.fin v) (Double.fin a)) (Double.fin m))
          (Double.fin a))
        (Double.fin a) = true := by
  rw [Double.sub64_fin]
  have hd0 : v - a ≤ 0 := sub_nonpos.mpr hav
  have hD0 : round64 (v - a) ≤ 0 := round64_nonpos hd0
  unfold Double.ofRat
  by_cases hD : (2 : ℚ) ^ 1024 ≤ |round64 (v - a)|
  · rw [if_pos hD]
    have hlt : v - a < 0 := by
      rcases lt_or_eq_of_le hd0 with h | h
      · exact h
      · exfalso
        rw [h, round64_zero, abs_zero] at hD
        norm_num at hD
    simp [hlt, Double.infOfSign, Double.mul64, Double.mul, hm0.ne', hm0,
      Double.add64, Double.add, Double.rounded, Double.le]
  · rw [if_neg hD]
    rw [abs_of_nonpos hD0] at hD
    have hP0 : round64 (round64 (v - a) * m) ≤ 0 :=
      round64_nonpos (mul_nonpos_of_nonpos_of_nonneg hD0 hm0.le)
    have hPD : round64 (v - a) ≤ round64 (round64 (v - a) * m) := by
      have : round64 (v - a) ≤ round64 (v - a) * m := by nlinarith
      have := round64_mono this
      rwa [round64_round64] at this
    have hP : Double.ofRat (round64 (v - a) * m) =
        Double.fin (round64 (round64 (v - a) * m)) := by
      apply Double.ofRat_eq rfl
      rw [abs_of_nonpos hP0]
      linarith [not_le.mp hD]
    simp only [Double.mul64, Double.mul, Double.rounded, hP, Double.add64, Double.add]
    constructor
    · exact Double.ofRat_mono (by linarith)
    · have := Double.ofRat_mono
        (show round64 (round64 (v - a) * m) + a ≤ a by linarith)
      rwa [Double.ofRat_of_isBinary64 ha] at this

/-- For a sample count between 1 and 60 and a previous average that is a binary64 value,
the new average lies between the previous average and the value that the multiplier 1
gives. -/
theorem CalcEMA_between (a v : ℚ) (n : ℤ) (h1 : 1 ≤ n) (h2 : n ≤ 60) (ha : isBinary64 a) :
    Double.between (Double.fin a) (CalcEMA (Double.fin a) n (Double.fin v))
      (emaTarget (Double.fin a) (Double.fin v)) := by
  obtain ⟨e, m0, m1, -⟩ := ema_mult n h1 h2
  simp only [CalcEMA, emaTarget, e]
  rcases le_total a v with h | h
  · exact Or.inl (ema_step_up a v _ ha h m0 m1)
  · exact Or.inr (ema_step_down a v _ ha h m0 m1)

/-- A `double` multiplied by 1 is unchanged. -/
theorem Double.mul64_one (d : Double) (h : d.isValue) : Double.mul64 d (Double.fin 1) = d := by
  cases d with
  | fin r =>
    simp only [Double.mul64, Double.mul, Double.rounded, mul_one]
    exact Double.ofRat_of_isBinary64 h
  | posInf => norm_num [Double.mul64, Double.mul, Double.rounded, Double.infOfSign]
  | negInf => norm_num [Double.mul64, Double.mul, Double.rounded, Double.infOfSign]
  | nan => simp [Double.mul64, Double.mul, Double.rounded]

/-- With the sample count 1 the multiplier is 1 and `CalcEMA` returns
`(Value - PrevAvg) + PrevAvg`. -/
theorem CalcEMA_one (PrevAvg Value : Double) :
    CalcEMA PrevAvg 1 Value = emaTarget PrevAvg Value := by
  obtain ⟨e, -, -, h⟩ := ema_mult 1 (le_refl 1) (by norm_num)
  rw [h rfl] at e
  simp only [CalcEMA, emaTarget, e]
  rw [Double.mul64_one (Double.sub64 Value PrevAvg) (Double.isValue_rounded _)]

/-- The multiplier 1 gives the new value itself when the difference to the previous
average is a binary64 value. -/
theorem emaTarget_eq (a v : ℚ) (hv : isBinary64 v) (hd : isBinary64 (v - a)) :
    emaTarget (Double.fin a) (Double.fin v) = Double.fin v := by
  unfold emaTarget
  rw [Double.sub64_fin, Double.ofRat_of_isBinary64 hd]
  simp only [Double.add64, Double.add, Double.rounded, sub_add_cancel]
  exact Double.ofRat_of_isBinary64 hv

/-- The result of `CalcEMA` is a `double`. -/
theorem CalcEMA_isValue (PrevAvg Value : Double) (n : ℤ) : (CalcEMA PrevAvg n Value).isValue :=
  Double.isValue_rounded _

/-- After any number of calls of `SetEncoderStats` the sample counter is not negative and
the three metrics are `double` values. -/
theorem feedEncoderStats_invariant (S : FPublisherStats) (L B : Double) (QP : Int)
    (h0 : 0 ≤ S.EncoderStatSamples) (hl : S.EncoderLatencyMs.isValue)
    (hb : S.EncoderBitrateMbps.isValue) (hq : S.EncoderQP.isValue) (j : Nat) :
    0 ≤ (S.feedEncoderStats L B QP j).EncoderStatSamples ∧
      (S.feedEncoderStats L B QP j).EncoderLatencyMs.isValue ∧
      (S.feedEncoderStats L B QP j).EncoderBitrateMbps.isValue ∧
      (S.feedEncoderStats L B QP j).EncoderQP.isValue := by
  induction j with
  | zero => exact ⟨h0, hl, hb, hq⟩
  | succ j ih =>
    refine ⟨?_, CalcEMA_isValue _ _ _, CalcEMA_isValue _ _ _, CalcEMA_isValue _ _ _⟩
    simp only [FPublisherStats.feedEncoderStats, FPublisherStats.SetEncoderStats]
    exact le_min (by linarith [ih.1]) (by norm_num)

/-- An unsigned integer below `2^53` is converted to `double` without rounding. -/
theorem Double.ofNat64_eq (n : Nat) (h : n < 2 ^ 53) : Double.ofNat64 n = Double.fin (n : ℚ) :=
  Double.ofRat_of_isBinary64 (isBinary64_natCast n h)

/-- The quotient of an integer below `2^53` by a positive integer constant, computed in
binary64 arithmetic and converted back to `size_t`, is the integer quotient, as soon as
half a unit in the last place of the quotient is below the reciprocal of the constant. -/
theorem toSizeT_div64 (n d : Nat) (c : ℤ) (hd : 0 < d) (hn : n < 2 ^ 53)
    (hq : (n : ℚ) / (d : ℚ) < 2 ^ (c + 1)) (hc : (2 : ℚ) ^ (c - 52) / 2 < 1 / (d : ℚ))
    (hc' : -1022 ≤ c) :
    Double.toSizeT (Double.div64 (Double.fin (n : ℚ)) (Double.fin (d : ℚ))) = n / d := by
  have hdpos : (0 : ℚ) < (d : ℚ) := by exact_mod_cast hd
  have hd' : (d : ℚ) ≠ 0 := ne_of_gt hdpos
  have hq0 : (0 : ℚ) ≤ (n : ℚ) / (d : ℚ) := by positivity
  have hk1 : ((n / d : ℕ) : ℚ) ≤ (n : ℚ) / (d : ℚ) := Nat.cast_div_le
  have hk2 : (n : ℚ) / (d : ℚ) ≤ ((n / d : ℕ) : ℚ) + 1 - 1 / (d : ℚ) := by
    have h1 : n + 1 ≤ d * (n / d + 1) := Nat.lt_mul_div_succ n hd
    have h2 : (n : ℚ) + 1 ≤ (d : ℚ) * (((n / d : ℕ) : ℚ) + 1) := by exact_mod_cast h1
    rw [div_le_iff₀ hdpos]
    have h3 : (((n / d : ℕ) : ℚ) + 1 - 1 / (d : ℚ)) * (d : ℚ) =
        (d : ℚ) * (((n / d : ℕ) : ℚ) + 1) - 1 := by
      field_simp
      ring
    linarith
  have hkn : n / d < 2 ^ 53 := lt_of_le_of_lt (Nat.div_le_self n d) hn
  have hkq : ((n / d : ℕ) : ℚ) + 1 ≤ 2 ^ 53 := by
    have : n / d + 1 ≤ 2 ^ 53 := hkn
    exact_mod_cast this
  have hlow : ((n / d : ℕ) : ℚ) ≤ round64 ((n : ℚ) / (d : ℚ)) := by
    have := round64_mono hk1
    rwa [(isBinary64_natCast (n / d) hkn).1] at this
  have hup : round64 ((n : ℚ) / (d : ℚ)) < ((n / d : ℕ) : ℚ) + 1 := by
    by_cases hz : (n : ℚ) / (d : ℚ) = 0
    · rw [hz, round64_zero]
      positivity
    · have hpos : (0 : ℚ) < |(n : ℚ) / (d : ℚ)| := abs_pos.mpr hz
      have hlog : Int.log 2 |(n : ℚ) / (d : ℚ)| < c + 1 := by
        apply (Int.lt_zpow_iff_log_lt (b := 2) (by norm_num) hpos).mp
        rw [abs_of_nonneg hq0]
        exact_mod_cast hq
      have he : ulpExponent ((n : ℚ) / (d : ℚ)) ≤ c - 52 := by
        unfold ulpExponent
        exact max_le (by omega) (by omega)
      have hpow : (2 : ℚ) ^ ulpExponent ((n : ℚ) / (d : ℚ)) ≤ 2 ^ (c - 52) :=
        zpow_le_zpow_right₀ (by norm_num) he
      have herr := (abs_le.mp (round64_error ((n : ℚ) / (d : ℚ)))).2
      linarith
  have e : Double.div64 (Double.fin (n : ℚ)) (Double.fin (d : ℚ)) =
      Double.fin (round64 ((n : ℚ) / (d : ℚ))) := by
    simp only [Double.div64, Double.div, if_neg hd', Double.rounded]
    apply Double.ofRat_eq rfl
    rw [abs_of_nonneg (round64_nonneg hq0)]
    have : (2 : ℚ) ^ 53 < 2 ^ 1024 := by norm_num
    linarith
  rw [e]
  simp only [Double.toSizeT]
  have h64 : round64 ((n : ℚ) / (d : ℚ)) < 2 ^ 64 := by
    have : (2 : ℚ) ^ 53 < 2 ^ 64 := by norm_num
    linarith
  rw [if_pos ⟨round64_nonneg hq0, h64⟩]
  have hfl : ⌊round64 ((n : ℚ) / (d : ℚ))⌋ = ((n / d : ℕ) : ℤ) := by
    rw [Int.floor_eq_iff]
    exact ⟨by exact_mod_cast hlow, by exact_mod_cast hup⟩
  rw [hfl]
  exact Int.toNat_ofNat (n / d)

/-- C11.  Unit scaling.  For every finite `double` value `q` and every unit string `u`,
`GetInUnit` returns `(q / 1000000, "M" + u)` when `q >= 1000000`, `(q / 1000, "K" + u)`
when `1000 <= q < 1000000`, the quotient being the `double` quotient (rounded to binary64),
and `(q, u)` when `q < 1000`; positive infinity is scaled like a value above `1000000`,
negative infinity and `NaN` are returned as they are.  For every `size_t` value `n` below
`2^53` the same three cases hold, the quotient being the integer quotient. -/
theorem C11_unit_scaling (q : ℚ) (n : Nat) (u : String) (hn : n < 2 ^ 53) :
    ((1000000 ≤ q →
        GetInUnit_double (Double.fin q) u = (Double.ofRat (q / 1000000), "M" ++ u)) ∧
      (1000 ≤ q → q < 1000000 →
        GetInUnit_double (Double.fin q) u = (Double.ofRat (q / 1000), "K" ++ u)) ∧
      (q < 1000 → GetInUnit_double (Double.fin q) u = (Double.fin q, u)) ∧
      GetInUnit_double Double.posInf u = (Double.posInf, "M" ++ u) ∧
      GetInUnit_double Double.negInf u = (Double.negInf, u) ∧
      GetInUnit_double Double.nan u = (Double.nan, u)) ∧
    ((1000000 ≤ n → GetInUnit_size_t n u = (n / 1000000, "M" ++ u)) ∧
      (1000 ≤ n → n < 1000000 → GetInUnit_size_t n u = (n / 1000, "K" ++ u)) ∧
      (n < 1000 → GetInUnit_size_t n u = (n, u))) := by
  have hnq : (n : ℚ) < 2 ^ 53 := by exact_mod_cast hn
  refine ⟨⟨?_, ?_, ?_, ?_, ?_, ?_⟩, ?_, ?_, ?_⟩
  · intro h
    simp [GetInUnit_double, MEGA, Double.le, Double.div64, Double.div, Double.rounded, h]
  · intro h1 h2
    simp [GetInUnit_double, MEGA, KILO, Double.le, Double.div64, Double.div, Double.rounded,
      h1, not_le.mpr h2]
  · intro h
    have h' : q < 1000000 := by linarith
    simp [GetInUnit_double, MEGA, KILO, Double.le, not_le.mpr h, not_le.mpr h']
  · norm_num [GetInUnit_double, MEGA, Double.le, Double.div64, Double.div, Double.infOfSign,
      Double.rounded]
  · simp [GetInUnit_double, MEGA, KILO, Double.le]
  · simp [GetInUnit_double, MEGA, KILO, Double.le]
  · intro h
    have hq : (1000000 : ℚ) ≤ (n : ℚ) := by exact_mod_cast h
    have ht := toSizeT_div64 n 1000000 33 (by norm_num) hn
      (by
        rw [div_lt_iff₀ (by norm_num)]
        have : (2 : ℚ) ^ 53 ≤ 2 ^ ((33 : ℤ) + 1) * ((1000000 : ℕ) : ℚ) := by norm_num
        linarith)
      (by norm_num) (by norm_num)
    simp only [Nat.cast_ofNat] at ht
    simp only [GetInUnit_size_t, Double.ofNat64_eq n hn, MEGA, Double.le, decide_eq_true_eq,
      if_pos hq, ht]
  · intro h1 h2
    have hq1 : (1000 : ℚ) ≤ (n : ℚ) := by exact_mod_cast h1
    have hq2' : (n : ℚ) < 1000000 := by exact_mod_cast h2
    have hq2 : ¬ (1000000 : ℚ) ≤ (n : ℚ) := not_le.mpr hq2'
    have ht := toSizeT_div64 n 1000 9 (by norm_num) hn
      (by
        rw [div_lt_iff₀ (by norm_num)]
        have : (1000000 : ℚ) ≤ 2 ^ ((9 : ℤ) + 1) * ((1000 : ℕ) : ℚ) := by norm_num
        linarith)
      (by norm_num) (by norm_num)
    simp only [Nat.cast_ofNat] at ht
    simp only [GetInUnit_size_t, Double.ofNat64_eq n hn, MEGA, KILO, Double.le,
      decide_eq_true_eq, if_neg hq2, if_pos hq1, ht]
  · intro h
    have hq1 : ¬ (1000 : ℚ) ≤ (n : ℚ) := by
      rw [not_le]
      exact_mod_cast h
    have hq2 : ¬ (1000000 : ℚ) ≤ (n : ℚ) := by
      rw [not_le]
      have : n < 1000000 := by omega
      exact_mod_cast this
    simp only [GetInUnit_size_t, Double.ofNat64_eq n hn, MEGA, KILO, Double.le,
      decide_eq_true_eq, if_neg hq2, if_neg hq1]

/-- C11, the instances of the claim: 500 is returned with the plain unit, 5000 as 5 with
the `"K"` unit and 5000000 as 5 with the `"M"` unit, for both instances of `GetInUnit`. -/
theorem C11_unit_scaling_witness :
    (5000000 : Nat) < 2 ^ 53 ∧
    (GetInUnit_double (Double.fin 500) "bps" = (Double.fin 500, "bps") ∧
      GetInUnit_double (Double.fin 5000) "bps" = (Double.fin 5, "Kbps") ∧
      GetInUnit_double (Double.fin 5000000) "bps" = (Double.fin 5, "Mbps")) ∧
    (GetInUnit_size_t 500 "B" = (500, "B") ∧
      GetInUnit_size_t 5000 "B" = (5, "KB") ∧
      GetInUnit_size_t 5000000 "B" = (5, "MB")) := by
  have h1 := C11_unit_scaling 500 500 "bps" (by norm_num)
  have h2 := C11_unit_scaling 5000 5000 "bps" (by norm_num)
  have h3 := C11_unit_scaling 5000000 5000000 "bps" (by norm_num)
  have g1 := C11_unit_scaling 500 500 "B" (by norm_num)
  have g2 := C11_unit_scaling 5000 5000 "B" (by norm_num)
  have g3 := C11_unit_scaling 5000000 5000000 "B" (by norm_num)
  have b5 : isBinary64 5 := by
    have := isBinary64_natCast 5 (by norm_num)
    simpa using this
  refine ⟨by norm_num, ⟨?_, ?_, ?_⟩, ?_, ?_, ?_⟩
  · exact h1.1.2.2.1 (by norm_num)
  · rw [h2.1.2.1 (by norm_num) (by norm_num)]
    norm_num
    exact ⟨Double.ofRat_of_isBinary64 b5, rfl⟩
  · rw [h3.1.1 (by norm_num)]
    norm_num
    exact ⟨Double.ofRat_of_isBinary64 b5, rfl⟩
  · exact g1.2.2.2 (by norm_num)
  · rw [g2.2.2.1 (by norm_num) (by norm_num)]
    rfl
  · rw [g3.2.1 (by norm_num)]
    rfl

/-- C11, a `size_t` value that is not a binary64 value:
`9999999999999999` is converted to the `double` `10^16` (a tie, rounded to even), so
`GetInUnit` returns `10000000000` with the `"M"` unit, while the quotient by `1000000` is
`9999999999.999999` and the integer quotient is `9999999999`. -/
theorem C11_counterexample :
    (9999999999999999 : Nat) < 2 ^ 64 ∧
    (1000000 : Nat) ≤ 9999999999999999 ∧
    Double.ofNat64 9999999999999999 = Double.fin 10000000000000000 ∧
    GetInUnit_size_t 9999999999999999 "B" = (10000000000, "MB") ∧
    (9999999999999999 : Nat) / 1000000 = 9999999999 ∧
    ((9999999999999999 : ℚ) / 1000000 ≠ 10000000000) := by
  have c : Double.ofNat64 9999999999999999 = Double.fin 10000000000000000 := by
    unfold Double.ofNat64
    have r : round64 ((9999999999999999 : ℕ) : ℚ) = 10000000000000000 := by
      rw [round64_eq_tie _ 53 5000000000000000 (by norm_num [abs_of_pos])
        (by norm_num [abs_of_pos]) (by norm_num [abs_of_neg]) (by norm_num)]
      norm_num
    exact Double.ofRat_eq r (by norm_num [abs_of_pos])
  have b : isBinary64 10000000000 := by
    have := isBinary64_natCast 10000000000 (by norm_num)
    simpa using this
  have e : Double.div64 (Double.fin 10000000000000000) (Double.fin 1000000) =
      Double.fin 10000000000 := by
    simp only [Double.div64, Double.div, Double.rounded]
    rw [if_neg (by norm_num)]
    norm_num
    exact Double.ofRat_of_isBinary64 b
  have f : ⌊(10000000000 : ℚ)⌋ = ((10000000000 : ℕ) : ℤ) := by
    rw [Int.floor_eq_iff]
    norm_num
  have g : Double.toSizeT (Double.fin 10000000000) = 10000000000 := by
    simp only [Double.toSizeT]
    rw [if_pos (by norm_num), f, Int.toNat_ofNat]
  have hle : Double.le MEGA (Double.fin 10000000000000000) = true := by
    simp only [MEGA, Double.le]
    norm_num
  refine ⟨by norm_num, by norm_num, c, ?_, by norm_num, by norm_num⟩
  unfold GetInUnit_size_t
  rw [c, if_pos hle, show MEGA = Double.fin 1000000 from rfl, e, g]
  rfl


/-- The optional members after a delivery are the ones the scan produced. -/
theorem OnStatsDelivered_optional_fields (self : FRTCStatsCollector) (Report : RTCStatsReport) :
    (self.OnStatsDelivered Report).QualityLimitationReason =
      (scanReport self Report).self.QualityLimitationReason ∧
    (self.OnStatsDelivered Report).ContentType = (scanReport self Report).self.ContentType := by
  unfold FRTCStatsCollector.OnStatsDelivered
  simp only
  split <;> simp

/-- The quality limitation reason after the delivery of a report whose only video outbound
stream record is `Stats`. -/
theorem OnStatsDelivered_QualityLimitationReason (self : FRTCStatsCollector) (T : Int)
    (pre post : List RTCStats) (Stats : RTCStats) (hv : isVideoOutbound Stats)
    (hpre : ∀ x ∈ pre, ¬ isVideoOutbound x) (hpost : ∀ x ∈ post, ¬ isVideoOutbound x) :
    (self.OnStatsDelivered
        { timestamp_us := T, stats := pre ++ Stats :: post }).QualityLimitationReason =
      GetOptionalStatString Stats.quality_limitation_reason := by
  have hview := videoView_scanReport self T pre post Stats hv hpre hpost
  have h1 := congrArg VideoView.QualityLimitationReason hview
  simp only [videoView, onVideoOutbound, scanStart] at h1
  exact (OnStatsDelivered_optional_fields self _).1.trans h1

/-- A string without a NUL character is its own C string. -/
theorem c_str_eq_self (s : String) (h : Char.ofNat 0 ∉ s.data) : c_str s = s := by
  unfold c_str
  have : s.data.takeWhile (fun c => decide (c ≠ Char.ofNat 0)) = s.data := by
    rw [List.takeWhile_eq_self_iff]
    intro x hx
    simp only [ne_eq, decide_eq_true_eq]
    intro hx0
    exact h (hx0 ▸ hx)
  rw [this]

/-- C12.  Optional field presence: for every collector state, after delivering a video
outbound stream record whose `quality_limitation_reason` is undefined the collector's
`QualityLimitationReason` is unset; after delivering one whose member is defined with the
string `s` it is set to the text of `s` before the first NUL character, which is `s` when
`s` holds no NUL character; so a record without the member and a record that reports the
empty string leave different collector states. -/
theorem C12_optional_field_presence (self : FRTCStatsCollector) (T : Int)
    (pre post : List RTCStats) (Stats Other : RTCStats)
    (hv : isVideoOutbound Stats) (ho : isVideoOutbound Other)
    (hpre : ∀ x ∈ pre, ¬ isVideoOutbound x) (hpost : ∀ x ∈ post, ¬ isVideoOutbound x) :
    (Stats.quality_limitation_reason = none →
      (self.OnStatsDelivered
        { timestamp_us := T, stats := pre ++ Stats :: post }).QualityLimitationReason = none) ∧
    (∀ s : String, Stats.quality_limitation_reason = some s →
      (self.OnStatsDelivered
        { timestamp_us := T, stats := pre ++ Stats :: post }).QualityLimitationReason =
          some (c_str s)) ∧
    (∀ s : String, Char.ofNat 0 ∉ s.data → Stats.quality_limitation_reason = some s →
      (self.OnStatsDelivered
        { timestamp_us := T, stats := pre ++ Stats :: post }).QualityLimitationReason = some s) ∧
    (Stats.quality_limitation_reason = none → Other.quality_limitation_reason = some "" →
      self.OnStatsDelivered { timestamp_us := T, stats := pre ++ Stats :: post } ≠
        self.OnStatsDelivered { timestamp_us := T, stats := pre ++ Other :: post }) := by
  have e1 := OnStatsDelivered_QualityLimitationReason self T pre post Stats hv hpre hpost
  have e2 := OnStatsDelivered_QualityLimitationReason self T pre post Other ho hpre hpost
  refine ⟨?_, ?_, ?_, ?_⟩
  · intro h
    rw [e1, h]
    rfl
  · intro s h
    rw [e1, h]
    rfl
  · intro s hs h
    rw [e1, h]
    simp only [GetOptionalStatString, ToString, c_str_eq_self s hs]
  · intro h1 h2 heq
    have h := congrArg FRTCStatsCollector.QualityLimitationReason heq
    rw [e1, e2, h1, h2] at h
    simp [GetOptionalStatString] at h

/-- C12, an instance: a fresh collector receives a video record without the member, a video
record that reports the empty string, and a video record that reports `"cpu"`. -/
theorem C12_optional_field_presence_witness :
    ((FRTCStatsCollector.construct 0).OnStatsDelivered
        { timestamp_us := 1000000,
          stats := [] ++ videoBytesRecord 1000000 1000 :: [] }).QualityLimitationReason = none ∧
    ((FRTCStatsCollector.construct 0).OnStatsDelivered
        { timestamp_us := 1000000,
          stats := [] ++ videoReasonRecord 1000000 "cpu" :: [] }).QualityLimitationReason =
      some "cpu" ∧
    (FRTCStatsCollector.construct 0).OnStatsDelivered
        { timestamp_us := 1000000, stats := [] ++ videoBytesRecord 1000000 1000 :: [] } ≠
      (FRTCStatsCollector.construct 0).OnStatsDelivered
        { timestamp_us := 1000000, stats := [] ++ videoReasonRecord 1000000 "" :: [] } :=
  ⟨(C12_optional_field_presence (FRTCStatsCollector.construct 0) 1000000 [] []
      (videoBytesRecord 1000000 1000) (videoReasonRecord 1000000 "")
      (isVideoOutbound_videoBytesRecord _ _) (isVideoOutbound_videoReasonRecord _ _)
      (by simp) (by simp)).1 rfl,
   (C12_optional_field_presence (FRTCStatsCollector.construct 0) 1000000 [] []
      (videoReasonRecord 1000000 "cpu") (videoReasonRecord 1000000 "")
      (isVideoOutbound_videoReasonRecord _ _) (isVideoOutbound_videoReasonRecord _ _)
      (by simp) (by simp)).2.2.1 "cpu" (by decide) rfl,
   (C12_optional_field_presence (FRTCStatsCollector.construct 0) 1000000 [] []
      (videoBytesRecord 1000000 1000) (videoReasonRecord 1000000 "")
      (isVideoOutbound_videoBytesRecord _ _) (isVideoOutbound_videoReasonRecord _ _)
      (by simp) (by simp)).2.2.2 rfl rfl⟩

/-- C12, a string with a NUL character: the member is defined with
the three characters `a`, NUL, `b`, and `GetOptionalStat` converts `Member->c_str()`, so the
collector stores the one character string `"a"`, which is not the reported string. -/
theorem C12_counterexample :
    ((FRTCStatsCollector.construct 0).OnStatsDelivered
        { timestamp_us := 1000000,
          stats := [] ++ videoReasonRecord 1000000 (String.mk ['a', Char.ofNat 0, 'b']) :: [] }
      ).QualityLimitationReason = some "a" ∧
    (videoReasonRecord 1000000 (String.mk ['a', Char.ofNat 0, 'b'])).quality_limitation_reason =
      some (String.mk ['a', Char.ofNat 0, 'b']) ∧
    some "a" ≠ some (String.mk ['a', Char.ofNat 0, 'b']) := by
  refine ⟨?_, rfl, by decide⟩
  rw [OnStatsDelivered_QualityLimitationReason (FRTCStatsCollector.construct 0) 1000000 [] []
    (videoReasonRecord 1000000 (String.mk ['a', Char.ofNat 0, 'b']))
    (isVideoOutbound_videoReasonRecord _ _) (by simp) (by simp)]
  decide


/-- Registering the collectors of a list appends the list to the array. -/
theorem registerAll_StatsCollectors (registry : CollectorRegistry) (collectors : List Nat) :
    (registerAll registry collectors).StatsCollectors =
      registry.StatsCollectors ++ collectors := by
  unfold registerAll
  induction collectors generalizing registry with
  | nil => simp
  | cons c cs ih =>
    rw [List.foldl_cons, ih]
    simp [FPublisherStats.RegisterStatsCollector]

/-- Removing the collectors of a list keeps the elements that are not in the list, in
their order. -/
theorem unregisterAll_StatsCollectors (registry : CollectorRegistry) (collectors : List Nat) :
    (unregisterAll registry collectors).StatsCollectors =
      registry.StatsCollectors.filter (fun c => decide (c ∉ collectors)) := by
  unfold unregisterAll
  induction collectors generalizing registry with
  | nil => simp
  | cons c cs ih =>
    rw [List.foldl_cons, ih]
    simp only [FPublisherStats.UnregisterStatsCollector, List.filter_filter]
    congr 1
    funext x
    simp only [List.mem_cons, not_or, decide_not, Bool.decide_and, Bool.decide_or,
      Bool.not_or, ne_eq]
    exact Bool.and_comm _ _

/-- In a list without repetition, removing the members of a sublist without repetition
shortens the list by the length of the sublist. -/
theorem length_filter_not_mem (l us : List Nat) (hl : l.Nodup) (hu : us.Nodup)
    (hsub : ∀ c ∈ us, c ∈ l) :
    (l.filter (fun c => decide (c ∉ us))).length = l.length - us.length := by
  have hperm : (l.filter (fun c => decide (c ∈ us))).Perm us := by
    apply (List.perm_ext_iff_of_nodup (hl.filter _) hu).mpr
    intro a
    simp only [List.mem_filter, decide_eq_true_eq]
    exact ⟨fun h => h.2, fun h => ⟨hsub a h, h⟩⟩
  have hsplit := (List.filter_append_perm (fun c => decide (c ∈ us)) l).length_eq
  rw [List.length_append, hperm.length_eq] at hsplit
  have heq : (l.filter (fun c => decide (c ∉ us))) =
      l.filter (fun x => !(decide (x ∈ us))) := by
    congr 1
    funext x
    simp
  rw [heq]
  omega

/-- C13.  Registry membership: starting from an empty registry, registering `N` distinct
collectors with `RegisterStatsCollector` and then unregistering `M` of them with
`UnregisterStatsCollector` leaves exactly the other `N - M` collectors in
`StatsCollectors`, each present once and none of the unregistered ones present (also when
`M = N`); constructing a collector adds it and destroying it removes it, and neither
changes the presence of another collector. -/
theorem C13_registry_membership (registered unregistered : List Nat)
    (hreg : registered.Nodup) (hun : unregistered.Nodup)
    (hsub : ∀ c ∈ unregistered, c ∈ registered) :
    (∀ c, c ∈ (unregisterAll (registerAll CollectorRegistry.empty registered)
        unregistered).StatsCollectors ↔ c ∈ registered ∧ c ∉ unregistered) ∧
    (unregisterAll (registerAll CollectorRegistry.empty registered)
        unregistered).StatsCollectors.Nodup ∧
    (unregisterAll (registerAll CollectorRegistry.empty registered)
        unregistered).StatsCollectors.length = registered.length - unregistered.length ∧
    (∀ c ∈ unregistered, (unregisterAll (registerAll CollectorRegistry.empty registered)
        unregistered).StatsCollectors.count c = 0) ∧
    (∀ c ∈ registered, c ∉ unregistered →
      (unregisterAll (registerAll CollectorRegistry.empty registered)
        unregistered).StatsCollectors.count c = 1) ∧
    (∀ (registry : CollectorRegistry) (this : Nat),
      this ∈ (FRTCStatsCollector.constructRegistry registry this).StatsCollectors ∧
      this ∉ (FRTCStatsCollector.destructRegistry registry this).StatsCollectors ∧
      (∀ c, c ≠ this →
        (c ∈ (FRTCStatsCollector.constructRegistry registry this).StatsCollectors ↔
          c ∈ registry.StatsCollectors) ∧
        (c ∈ (FRTCStatsCollector.destructRegistry registry this).StatsCollectors ↔
          c ∈ registry.StatsCollectors))) := by
  have hR : (unregisterAll (registerAll CollectorRegistry.empty registered)
      unregistered).StatsCollectors =
      registered.filter (fun c => decide (c ∉ unregistered)) := by
    rw [unregisterAll_StatsCollectors, registerAll_StatsCollectors]
    simp [CollectorRegistry.empty]
  have hmem : ∀ c, c ∈ registered.filter (fun c => decide (c ∉ unregistered)) ↔
      c ∈ registered ∧ c ∉ unregistered := by
    intro c
    simp [List.mem_filter]
  have hnd : (registered.filter (fun c => decide (c ∉ unregistered))).Nodup := hreg.filter _
  rw [hR]
  refine ⟨hmem, hnd, length_filter_not_mem registered unregistered hreg hun hsub, ?_, ?_, ?_⟩
  · intro c hc
    apply List.count_eq_zero_of_not_mem
    rw [hmem]
    exact fun h => h.2 hc
  · intro c hc hnc
    exact List.count_eq_one_of_mem hnd ((hmem c).mpr ⟨hc, hnc⟩)
  · intro registry this
    refine ⟨?_, ?_, ?_⟩
    · simp [FRTCStatsCollector.constructRegistry, FPublisherStats.RegisterStatsCollector]
    · simp [FRTCStatsCollector.destructRegistry, FPublisherStats.UnregisterStatsCollector]
    · intro c hc
      constructor
      · simp [FRTCStatsCollector.constructRegistry, FPublisherStats.RegisterStatsCollector, hc]
      · simp [FRTCStatsCollector.destructRegistry, FPublisherStats.UnregisterStatsCollector, hc]

/-- C13, an instance: the collectors at the addresses 10, 20 and 30 are registered and the
one at 20 is unregistered; 10 and 30 remain, in this order. -/
theorem C13_registry_membership_witness :
    (unregisterAll (registerAll CollectorRegistry.empty [10, 20, 30]) [20]).StatsCollectors =
      [10, 30] ∧
    (unregisterAll (registerAll CollectorRegistry.empty [10, 20, 30]) [20]).StatsCollectors.length =
      [10, 20, 30].length - [20].length := by
  have h := C13_registry_membership [10, 20, 30] [20] (by decide) (by decide) (by decide)
  refine ⟨?_, h.2.2.1⟩
  simp [unregisterAll, registerAll, CollectorRegistry.empty,
    FPublisherStats.RegisterStatsCollector, FPublisherStats.UnregisterStatsCollector]


/-- No record changes the stored encode totals or the stored average during the scan. -/
theorem encodeStored_scanStep (Report : RTCStatsReport) (st : ScanState) (Stats : RTCStats) :
    (scanStep Report st Stats).self.TotalEncodedFrames = st.self.TotalEncodedFrames ∧
    (scanStep Report st Stats).self.TotalEncodeTime = st.self.TotalEncodeTime ∧
    (scanStep Report st Stats).self.AvgEncodeTime = st.self.AvgEncodeTime := by
  unfold scanStep
  split_ifs
  · simp only [onVideoOutbound, and_self]
  · simp only [onAudioOutbound, and_self]
  · exact ⟨rfl, rfl, rfl⟩
  · exact ⟨rfl, rfl, rfl⟩
  · exact ⟨rfl, rfl, rfl⟩
  · exact ⟨rfl, rfl, rfl⟩

theorem encodeStored_foldl (Report : RTCStatsReport) (l : List RTCStats) (st : ScanState) :
    (l.foldl (scanStep Report) st).self.TotalEncodedFrames = st.self.TotalEncodedFrames ∧
    (l.foldl (scanStep Report) st).self.TotalEncodeTime = st.self.TotalEncodeTime ∧
    (l.foldl (scanStep Report) st).self.AvgEncodeTime = st.self.AvgEncodeTime := by
  induction l generalizing st with
  | nil => exact ⟨rfl, rfl, rfl⟩
  | cons x xs ih =>
    rw [List.foldl_cons]
    obtain ⟨h1, h2, h3⟩ := ih (scanStep Report st x)
    obtain ⟨g1, g2, g3⟩ := encodeStored_scanStep Report st x
    exact ⟨h1.trans g1, h2.trans g2, h3.trans g3⟩

/-- The two locals after the scan are those set by the last video outbound stream record. -/
theorem scanReport_new_totals_last (self : FRTCStatsCollector) (T : Int)
    (pre post : List RTCStats) (Stats : RTCStats) (hv : isVideoOutbound Stats)
    (hpost : ∀ x ∈ post, ¬ isVideoOutbound x) :
    (scanReport self { timestamp_us := T, stats := pre ++ Stats :: post }).NewTotalEncodedFrames =
      Double.ofNat (ValueOrDefault Stats.frames_encoded 0) ∧
    (scanReport self { timestamp_us := T, stats := pre ++ Stats :: post }).NewTotalEncodeTime =
      ValueOrDefault Stats.total_encode_time (Double.fin 0) := by
  unfold scanReport
  simp only [List.foldl_append, List.foldl_cons]
  have hview := videoView_foldl_of_not { timestamp_us := T, stats := pre ++ Stats :: post } post
    hpost (scanStep { timestamp_us := T, stats := pre ++ Stats :: post }
      (List.foldl (scanStep { timestamp_us := T, stats := pre ++ Stats :: post })
        { self := self, NewTotalEncodedFrames := Double.fin 0,
          NewTotalEncodeTime := Double.fin 0 } pre) Stats)
  rw [scanStep_of_isVideoOutbound _ _ _ hv] at hview ⊢
  have h1 := congrArg VideoView.NewTotalEncodedFrames hview
  have h2 := congrArg VideoView.NewTotalEncodeTime hview
  simp only [videoView, onVideoOutbound] at h1 h2
  exact ⟨h1, h2⟩

/-- The two locals after the scan of a report without a video outbound stream record are
still `0`. -/
theorem scanReport_new_totals_none (self : FRTCStatsCollector) (T : Int) (stats : List RTCStats)
    (h : ∀ x ∈ stats, ¬ isVideoOutbound x) :
    (scanReport self { timestamp_us := T, stats := stats }).NewTotalEncodedFrames =
      Double.fin 0 ∧
    (scanReport self { timestamp_us := T, stats := stats }).NewTotalEncodeTime =
      Double.fin 0 := by
  unfold scanReport
  have hview := videoView_foldl_of_not { timestamp_us := T, stats := stats } stats h
    { self := self, NewTotalEncodedFrames := Double.fin 0, NewTotalEncodeTime := Double.fin 0 }
  have h1 := congrArg VideoView.NewTotalEncodedFrames hview
  have h2 := congrArg VideoView.NewTotalEncodeTime hview
  simp only [videoView] at h1 h2
  exact ⟨h1, h2⟩

/-- When the guard of the encode time average fails against a finite new total, the stored
total already equals the new one. -/
theorem avgEncodeTimeUpdate_none_finite (F T0 T1 : Double) (n : ℚ)
    (h : avgEncodeTimeUpdate F T0 (Double.fin n) T1 = none) : F = Double.fin n := by
  unfold avgEncodeTimeUpdate at h
  cases F with
  | fin q =>
    simp [Double.sub, Double.neg, Double.add, Double.isNonzero] at h
    congr 1
    linarith
  | posInf => simp [Double.sub, Double.neg, Double.add, Double.isNonzero] at h
  | negInf => simp [Double.sub, Double.neg, Double.add, Double.isNonzero] at h
  | nan => simp [Double.sub, Double.neg, Double.add, Double.isNonzero] at h

/-- After a delivery the stored total of encoded frames is the local `NewTotalEncodedFrames`
of the scan, whenever that local is finite. -/
theorem OnStatsDelivered_TotalEncodedFrames (self : FRTCStatsCollector)
    (Report : RTCStatsReport) (n : ℚ)
    (hn : (scanReport self Report).NewTotalEncodedFrames = Double.fin n) :
    (self.OnStatsDelivered Report).TotalEncodedFrames = Double.fin n := by
  unfold FRTCStatsCollector.OnStatsDelivered
  simp only
  split
  · exact hn
  · rename_i hnone
    rw [hn] at hnone
    exact avgEncodeTimeUpdate_none_finite _ _ _ n hnone

/-- With pairwise distinct identifiers among the codec records, the codec looked up for a
record does not depend on the order of the report. -/
theorem get_codec_perm (T1 T2 : Int) (l1 l2 : List RTCStats) (hperm : l1.Perm l2)
    (hC : ((codecRecords l1).map (fun e => e.id)).Nodup) (OutboundStat : RTCStats) :
    get_codec { timestamp_us := T1, stats := l1 } OutboundStat =
      get_codec { timestamp_us := T2, stats := l2 } OutboundStat := by
  have hp : (codecRecords l1).Perm (codecRecords l2) := hperm.filter _
  have hfind : (codecRecords l1).find?
        (fun e => decide (e.id = derefString OutboundStat.codec_id)) =
      (codecRecords l2).find? (fun e => decide (e.id = derefString OutboundStat.codec_id)) := by
    cases h1 : (codecRecords l1).find?
        (fun e => decide (e.id = derefString OutboundStat.codec_id)) with
    | none =>
      cases h2 : (codecRecords l2).find?
          (fun e => decide (e.id = derefString OutboundStat.codec_id)) with
      | none => rfl
      | some b =>
        have hb := List.mem_of_find?_eq_some h2
        have hpb := List.find?_some h2
        rw [List.find?_eq_none] at h1
        exact absurd hpb (h1 b (hp.mem_iff.mpr hb))
    | some a =>
      have ha := List.mem_of_find?_eq_some h1
      have hpa := List.find?_some h1
      cases h2 : (codecRecords l2).find?
          (fun e => decide (e.id = derefString OutboundStat.codec_id)) with
      | none =>
        rw [List.find?_eq_none] at h2
        exact absurd hpa (h2 a (hp.mem_iff.mp ha))
      | some b =>
        have hb := hp.mem_iff.mpr (List.mem_of_find?_eq_some h2)
        have hpb := List.find?_some h2
        simp only [decide_eq_true_eq] at hpa hpb
        have hab : a = b := List.inj_on_of_nodup_map hC ha hb (hpa.trans hpb.symm)
        rw [hab]
  unfold get_codec RTCStatsReport.GetStatsOfTypeCodec
  simp only
  unfold codecRecords at hfind
  rw [hfind]

/-- The loop body depends on the report only through the codec lookup. -/
theorem scanStep_congr_report (R1 R2 : RTCStatsReport)
    (h : ∀ r, get_codec R1 r = get_codec R2 r) : scanStep R1 = scanStep R2 := by
  funext st Stats
  simp only [scanStep, onVideoOutbound, onAudioOutbound, h]

/-- A list with at most one element of a class has no two different elements of it. -/
theorem eq_of_filter_length_le_one (p : RTCStats → Bool) (l : List RTCStats)
    (h : (l.filter p).length ≤ 1) (x y : RTCStats) (hx : x ∈ l) (hy : y ∈ l)
    (hpx : p x = true) (hpy : p y = true) : x = y := by
  have hx' : x ∈ l.filter p := List.mem_filter.mpr ⟨hx, hpx⟩
  have hy' : y ∈ l.filter p := List.mem_filter.mpr ⟨hy, hpy⟩
  match hl : l.filter p with
  | [] => rw [hl] at hx'; cases hx'
  | [a] =>
    rw [hl] at hx' hy'
    rw [List.mem_singleton.mp hx', List.mem_singleton.mp hy']
  | a :: b :: rest =>
    rw [hl] at h
    simp at h

/-- The loop body, by the branch that the record reaches. -/
theorem scanStep_eq_branch (Report : RTCStatsReport) (st : ScanState) (Stats : RTCStats) :
    scanStep Report st Stats =
      (match branchOf Stats with
        | Branch.video => onVideoOutbound Report st Stats
        | Branch.audio => onAudioOutbound Report st Stats
        | Branch.track =>
          { st with
            self :=
              { st.self with
                FramesDropped := toInt32 (ValueOrDefault Stats.frames_dropped 0) } }
        | Branch.ice =>
          { st with
            self :=
              { st.self with
                Rtt := Double.mul (ValueOrDefault Stats.current_round_trip_time (Double.fin 0))
                  (Double.fin 1000) } }
        | Branch.skip => st) := by
  unfold scanStep branchOf
  split_ifs <;> rfl

theorem branchOf_video_iff (Stats : RTCStats) :
    branchOf Stats = Branch.video ↔ isVideoOutbound Stats := by
  unfold branchOf isVideoOutbound
  split_ifs <;> simp [*]

theorem branchOf_audio_iff (Stats : RTCStats) :
    branchOf Stats = Branch.audio ↔ isAudioOutbound Stats := by
  unfold branchOf isAudioOutbound
  split_ifs <;> simp [*]

theorem branchOf_track_iff (Stats : RTCStats) :
    branchOf Stats = Branch.track ↔ isVideoTrack Stats := by
  unfold branchOf isVideoTrack
  split_ifs <;> simp [*]

theorem branchOf_ice_iff (Stats : RTCStats) :
    branchOf Stats = Branch.ice ↔ isIceDispatched Stats := by
  unfold branchOf isIceDispatched
  split_ifs <;> simp [*]

/-- Two records that do not reach the same branch can be scanned in either order. -/
theorem scanStep_comm (Report : RTCStatsReport) (z : ScanState) (x y : RTCStats)
    (hU : branchOf x = branchOf y → branchOf x ≠ Branch.skip → x = y) :
    scanStep Report (scanStep Report z x) y = scanStep Report (scanStep Report z y) x := by
  by_cases hxy : x = y
  · rw [hxy]
  · simp only [scanStep_eq_branch]
    cases hbx : branchOf x <;> cases hby : branchOf y <;>
    first
    | exact absurd (hU (hbx.trans hby.symm) (by rw [hbx]; decide)) hxy
    | simp only [onVideoOutbound, onAudioOutbound]


/-- C15.  Record order independence: for every collector state and every report that holds
at most one video outbound stream record, at most one audio outbound stream record, at
most one video media track record and at most one record dispatched to the round trip
time branch, with codec records of pairwise distinct identifiers, the collector state
after `OnStatsDelivered` is the same for every ordering of the report's records. -/
theorem C15_record_order_independence (self : FRTCStatsCollector) (T : Int)
    (l1 l2 : List RTCStats) (hperm : l1.Perm l2)
    (hV : (l1.filter (fun x => decide (isVideoOutbound x))).length ≤ 1)
    (hA : (l1.filter (fun x => decide (isAudioOutbound x))).length ≤ 1)
    (hT : (l1.filter (fun x => decide (isVideoTrack x))).length ≤ 1)
    (hI : (l1.filter (fun x => decide (isIceDispatched x))).length ≤ 1)
    (hC : ((codecRecords l1).map (fun e => e.id)).Nodup) :
    self.OnStatsDelivered { timestamp_us := T, stats := l1 } =
      self.OnStatsDelivered { timestamp_us := T, stats := l2 } := by
  have hstep : scanStep { timestamp_us := T, stats := l1 } =
      scanStep { timestamp_us := T, stats := l2 } :=
    scanStep_congr_report _ _ (get_codec_perm T T l1 l2 hperm hC)
  have hscan : scanReport self { timestamp_us := T, stats := l1 } =
      scanReport self { timestamp_us := T, stats := l2 } := by
    unfold scanReport
    simp only
    rw [← hstep]
    apply List.Perm.foldl_eq' hperm
    intro x hx y hy z
    apply scanStep_comm
    intro hb hns
    cases hbx : branchOf x with
    | video =>
      exact eq_of_filter_length_le_one _ l1 hV x y hx hy
        (decide_eq_true ((branchOf_video_iff x).mp hbx))
        (decide_eq_true ((branchOf_video_iff y).mp (hb.symm.trans hbx)))
    | audio =>
      exact eq_of_filter_length_le_one _ l1 hA x y hx hy
        (decide_eq_true ((branchOf_audio_iff x).mp hbx))
        (decide_eq_true ((branchOf_audio_iff y).mp (hb.symm.trans hbx)))
    | track =>
      exact eq_of_filter_length_le_one _ l1 hT x y hx hy
        (decide_eq_true ((branchOf_track_iff x).mp hbx))
        (decide_eq_true ((branchOf_track_iff y).mp (hb.symm.trans hbx)))
    | ice =>
      exact eq_of_filter_length_le_one _ l1 hI x y hx hy
        (decide_eq_true ((branchOf_ice_iff x).mp hbx))
        (decide_eq_true ((branchOf_ice_iff y).mp (hb.symm.trans hbx)))
    | skip => exact absurd hbx hns
  unfold FRTCStatsCollector.OnStatsDelivered
  simp only [hscan]

/-- C15, an instance: a report with a video outbound stream record, an audio outbound
stream record and a codec record gives the same collector state as the reversed report. -/
theorem C15_record_order_independence_witness :
    (FRTCStatsCollector.construct 0).OnStatsDelivered
        { timestamp_us := 1000000,
          stats := [videoBytesRecord 1000000 1000, audioBytesRecord 1000000 500,
            codecRecord 1000000 "RTCCodec_0" "video/H264"] } =
      (FRTCStatsCollector.construct 0).OnStatsDelivered
        { timestamp_us := 1000000,
          stats := [videoBytesRecord 1000000 1000, audioBytesRecord 1000000 500,
            codecRecord 1000000 "RTCCodec_0" "video/H264"].reverse } :=
  C15_record_order_independence (FRTCStatsCollector.construct 0) 1000000 _ _
    (List.reverse_perm _).symm (by decide) (by decide) (by decide) (by decide) (by decide)

end MillicastPublisher
